import Mathlib

set_option maxHeartbeats 1000000
set_option maxRecDepth 4000

/-!
Verification development for the drizzle-to-typeorm schema converter
(src/converter.js).  The TypeScript compiler's syntax trees are shallowly
embedded as the inductive type `Expr` below; `convertSchemas` and its helper
functions are translated from src/converter.js, phase by phase:
pass 1 (entity registry), pass 2 (column / table-extras extraction and
relation-stub collection), the relation resolver, the distribution of
resolved stubs onto entities, and the code emitter.

Modelling conventions (all mirroring JavaScript semantics):
  * a JS string-or-undefined value is `Option String`; the truthiness test
    `if (s)` is `optTruthy` (`undefined` and `""` are falsy);
  * JS objects used as string-keyed maps are insertion-ordered association
    lists (`assocGet` / `assocSet`); `Object.entries` iteration order is
    modelled as insertion order (the integer-like-key reordering of JS
    objects cannot arise for the identifier-derived keys used here);
  * an object key built from an `undefined` value is the string
    "undefined", as in JS key coercion;
  * a property whose value is assigned `undefined` is modelled as the field
    being `none`, since every consumer of these records treats a
    present-but-undefined property exactly like an absent one;
  * the two statements in convertSchemas that can throw a TypeError
    (`const [nameArg, opts] = root.arguments` on a chain not rooted in a
    call, and `entityData[r.fromEntity].relations` for an unregistered
    source entity) are modelled with `Except String`;
  * object-literal properties that are not `PropertyAssignment`s are
    skipped by every consumer in the source, so `objLit` carries only the
    assignments (name, initializer); a non-identifier property name, whose
    `escapedText` is `undefined`, is represented by its JS-coerced key;
  * JS numbers produced by `+text` on a numeric literal are carried as the
    literal text (their JS string rendering for the decimal literals
    concerned), keeping emission exact without modelling IEEE floats;
  * case conversions are modelled on ASCII, which covers the identifier
    vocabulary the converter recognises.
-/

namespace DrizzleConv

/-- JS truthiness of a string (`""` is falsy). -/
def strTruthy (s : String) : Bool := s != ""

/-- JS truthiness of a string-or-undefined value. -/
def optTruthy : Option String → Bool
  | some s => s != ""
  | none => false

/-- JS `a || b` where `a` is string-or-undefined and `b` a string. -/
def jsOr (a : Option String) (b : String) : String :=
  match a with
  | some s => if s != "" then s else b
  | none => b

/-- Lookup in an insertion-ordered string-keyed map. -/
def assocGet {α : Type} : List (String × α) → String → Option α
  | [], _ => none
  | (k', v) :: t, k => if k' = k then some v else assocGet t k

/-- JS object assignment `m[k] = v`: overwrite in place, else append. -/
def assocSet {α : Type} : List (String × α) → String → α → List (String × α)
  | [], k, v => [(k, v)]
  | (k', v') :: t, k, v =>
      if k' = k then (k', v) :: t else (k', v') :: assocSet t k v

/-- `fileOutputMap[f] = fileOutputMap[f] || []; fileOutputMap[f].push(x)`. -/
def assocAppend {α : Type} : List (String × List α) → String → α → List (String × List α)
  | [], k, v => [(k, [v])]
  | (k', l) :: t, k, v =>
      if k' = k then (k', l ++ [v]) :: t else (k', l) :: assocAppend t k v

def isAsciiLower (c : Char) : Bool := 97 ≤ c.toNat && c.toNat ≤ 122

def isAsciiUpper (c : Char) : Bool := 65 ≤ c.toNat && c.toNat ≤ 90

def asciiUpper (c : Char) : Char :=
  if isAsciiLower c then Char.ofNat (c.toNat - 32) else c

def asciiLower (c : Char) : Char :=
  if isAsciiUpper c then Char.ofNat (c.toNat + 32) else c

/-- Substring test on character lists (JS `String.prototype.includes`). -/
def listContains : List Char → List Char → Bool
  | hay, pat =>
    if pat.isPrefixOf hay then true
    else
      match hay with
      | [] => false
      | _ :: t => listContains t pat

/-- JS `hay.includes(pat)`. -/
def containsStr (hay pat : String) : Bool := listContains hay.data pat.data

/-- The test `/current_timestamp/i.test(tx)` from `unwrapSqlTag`. -/
def containsCI (tx : String) : Bool :=
  listContains (tx.data.map asciiLower) "current_timestamp".data

/-- `w ? w[0].toUpperCase() + w.slice(1) : ""` — the `pascal` helper. -/
def pascal (w : String) : String :=
  match w.data with
  | [] => ""
  | c :: cs => String.mk (asciiUpper c :: cs)

/-- Strip the leading and trailing underscore runs (`/^_+|_+$/g`). -/
def stripUnderscores (s : String) : String :=
  String.mk (((s.data.dropWhile (· = '_')).reverse.dropWhile (· = '_')).reverse)

/-- `snakeToPascal` from the source: strip outer underscores, split on `_`,
drop empty segments, capitalise each word, join. -/
def snakeToPascal (s : String) : String :=
  String.join ((((stripUnderscores s).splitOn "_").filter (fun w => w != "")).map pascal)

/-- Character walk for `toSnake`: insert `_` between a lowercase letter and
an immediately following uppercase letter (the replace step of
`s.replace(/([a-z])([A-Z])/g, "$1_$2")`). -/
def snakeGo : List Char → List Char
  | [] => []
  | [c] => [c]
  | a :: b :: t =>
      if isAsciiLower a && isAsciiUpper b then a :: '_' :: snakeGo (b :: t)
      else a :: snakeGo (b :: t)

/-- `toSnake` from the relation collector: camelCase → snake_case, then the
whole result lowercased. -/
def toSnake (s : String) : String :=
  String.mk ((snakeGo s.data).map asciiLower)

/-- JS `String.prototype.trim` (whitespace at both ends). -/
def jsTrim (s : String) : String :=
  String.mk (((s.data.dropWhile Char.isWhitespace).reverse.dropWhile Char.isWhitespace).reverse)

/-- The regex test `/^'.*'$/.test(v)` of `printColumnField`: a single-quoted
form with no interior newline (`.` does not match a newline, and without
the `m` flag `^`/`$` anchor at the ends of the input). -/
def quotedTest (v : String) : Bool :=
  match v.data with
  | '\'' :: rest =>
      rest.length ≥ 1 && rest.getLast? = some '\'' && rest.dropLast.all (· ≠ '\n')
  | _ => false

/-- `s.replace(/,$/, "")`: remove a comma at the very end of the input
(no `m` flag, so `$` anchors only there). -/
def stripTrailingComma (s : String) : String :=
  if s.endsWith "," then s.dropRight 1
  else s

/-- `tsFile.replace(/\.ts$/, ".js")`. -/
def tsToJs (f : String) : String :=
  if f.endsWith ".ts" then (f.dropRight 3) ++ ".js"
  else f

def isWordChar (c : Char) : Bool :=
  isAsciiLower c || isAsciiUpper c || (48 ≤ c.toNat && c.toNat ≤ 57) || c = '_'

/-- `s.match(/^(\w+):/)?.[1]`: the leading word-character run when it is
directly followed by a colon. -/
def entityNameOf (s : String) : Option String :=
  let w := s.data.takeWhile isWordChar
  if w.length ≠ 0 && (s.data.drop w.length).head? = some ':' then
    some (String.mk w)
  else none

/-! ## The embedded TypeScript syntax trees -/

/-- Syntax-tree expressions, covering exactly the node shapes the converter
inspects.  `tagged` carries the tag expression and, for a
no-substitution template, the template text (`template.text`, which is
`undefined` for templates with substitutions).  `other` stands for any node
shape the converter never looks inside. -/
inductive Expr : Type where
  | strLit (text : String)
  | numLit (text : String)
  | trueKw
  | falseKw
  | arrLit (elems : List Expr)
  | objLit (props : List (String × Expr))
  | paren (inner : Expr)
  | tagged (tag : Expr) (templateText : Option String)
  | call (callee : Expr) (args : List Expr)
  | ident (nm : String)
  | propAccess (obj : Expr) (nm : String)
  | arrow (body : Expr)
  | other

def Expr.isCall : Expr → Bool
  | .call _ _ => true
  | _ => false

/-- `n.escapedText`: defined exactly on identifiers. -/
def escapedTextOf : Expr → Option String
  | .ident n => some n
  | _ => none

/-- `n?.text`: defined on string literals, numeric literals and identifiers. -/
def textOf : Expr → Option String
  | .strLit t => some t
  | .numLit t => some t
  | .ident n => some n
  | _ => none

/-- Approximation of `e.getText()` for the enum-member fallback (only
reached for exotic enum members; never load-bearing for the claims). -/
def exprText : Expr → String
  | .ident n => n
  | .numLit t => t
  | .strLit s => "\"" ++ s ++ "\""
  | _ => ""

/-! ## Column extraction (`getColumn`) -/

/-- A stored default value: `+arg.text` (number, carried as its literal
text), a quoted string, or a boolean marker. -/
inductive DefaultVal : Type where
  | num (t : String)
  | str (s : String)
  | boolV (b : Bool)
deriving DecidableEq, Repr

/-- A column descriptor, mirroring the plain object built by `getColumn`.
Fields that the source only ever sets to a single value keep the
`Option Bool`/`Option String` shape of "key present or not". -/
structure Col : Type where
  type : String := "text"
  nullable : Bool := true
  primary : Option Bool := none
  unique : Option Bool := none
  array : Option Bool := none
  generated : Option String := none
  default : Option DefaultVal := none
  createDate : Option Bool := none
  updateDate : Option Bool := none
  enum : Option (List String) := none
  length : Option String := none
  precision : Option String := none
  scale : Option String := none
  name : Option String := none
  referencesVar : Option String := none
  onDelete : Option String := none
  onUpdate : Option String := none
  cascade : Bool := false
deriving DecidableEq, Repr

/-- The fixed `typeMap` table. -/
def typeMapLookup : String → Option String
  | "uuid" => some "uuid"
  | "varchar" => some "varchar"
  | "char" => some "char"
  | "text" => some "text"
  | "bigint" => some "bigint"
  | "int" => some "int"
  | "integer" => some "int"
  | "smallint" => some "smallint"
  | "numeric" => some "numeric"
  | "decimal" => some "decimal"
  | "float" => some "float"
  | "double" => some "double"
  | "boolean" => some "boolean"
  | "timestamp" => some "timestamp"
  | "timestamptz" => some "timestamptz"
  | "date" => some "date"
  | "time" => some "time"
  | "json" => some "json"
  | "jsonb" => some "jsonb"
  | "geometry" => some "geometry"
  | "geography" => some "geography"
  | _ => none

/-- `toType`: `typeMap[x] || "text"`, with `x` possibly undefined. -/
def toType (x : Option String) : String :=
  match x with
  | some s => (typeMapLookup s).getD "text"
  | none => "text"

/-- `unwrapSqlTag`: only a template tagged by the identifier `sql` whose
(no-substitution) text matches `/current_timestamp/i`. -/
def unwrapSqlTag : Expr → Option String
  | .tagged (.ident "sql") (some tx) =>
      if containsCI tx then some "CURRENT_TIMESTAMP" else none
  | _ => none

/-- `overrideDefaultIfSqlTagged`. -/
def overrideDefaultIfSqlTagged (e : Expr) : Option String :=
  match unwrapSqlTag e with
  | some s => some ("'" ++ s ++ "'")
  | none => none

/-- Walk to the root of the builder call chain:
`while (isCall root && isPropAccess root.expression)
   root = root.expression.expression`. -/
def peelRoot : Expr → Expr
  | .call (.propAccess obj _) _ => peelRoot obj
  | e => e

/-- Enum member rendering: `isStr(e) ? e.text : e.name?.escapedText ?? e.getText()`. -/
def enumElemText : Expr → String
  | .strLit t => t
  | .propAccess _ n => n
  | e => exprText e

/-- One recognised key of the root call's options object. -/
def applyOptProp (col : Col) (k : String) (v : Expr) : Col :=
  if k = "length" then
    match v with
    | .numLit t => { col with length := some t }
    | _ => col
  else if k = "precision" then
    match v with
    | .numLit t => { col with precision := some t }
    | _ => col
  else if k = "scale" then
    match v with
    | .numLit t => { col with scale := some t }
    | _ => col
  else if k = "enum" then
    match v with
    | .arrLit es => { col with enum := some (es.map enumElemText), type := "enum" }
    | _ => col
  else if k = "withTimezone" then
    match v with
    | .trueKw => { col with type := "timestamptz" }
    | _ => col
  else col

/-- The stored value of a `.default(arg)` modifier (`col.default = ...`).
`none` models the JS assignment of `undefined`. -/
def defaultValOf (arg : Option Expr) : Option DefaultVal :=
  match arg with
  | none => some (.boolV true)
  | some a =>
    match overrideDefaultIfSqlTagged a with
    | some s => some (.str s)
    | none =>
      match a with
      | .numLit t => some (.num t)
      | .strLit s => some (.str ("'" ++ s ++ "'"))
      | .trueKw => some (.boolV true)
      | .falseKw => some (.boolV false)
      | _ => none

/-- The properties of the second argument of a `.references(...)` call. -/
def applyRefProp (col : Col) (k : String) (v : Expr) : Col :=
  if k = "onDelete" then
    match v with
    | .strLit s => { col with onDelete := some s }
    | _ => col
  else if k = "onUpdate" then
    match v with
    | .strLit s => { col with onUpdate := some s }
    | _ => col
  else if k = "cascade" then
    match v with
    | .trueKw => { col with cascade := true }
    | _ => col
  else col

/-- The `references` case of the modifier switch.  A `.references()` call
with no argument reaches `ts.isArrowFunction(arg)` with `arg` undefined,
which reads `.kind` of undefined and throws. -/
def applyReferences (col : Col) (arg0 : Option Expr) (arg1 : Option Expr) :
    Except String Col :=
  match arg0 with
  | none => .error "TypeError: Cannot read properties of undefined (reading kind)"
  | some a0 =>
    let col1 :=
      match a0 with
      | .arrow (.propAccess obj _) => { col with referencesVar := escapedTextOf obj }
      | _ => col
    .ok (match arg1 with
         | some (.objLit props) => props.foldl (fun c kv => applyRefProp c kv.1 kv.2) col1
         | _ => col1)

/-- One frame of the outward modifier walk: the `switch (method?.escapedText)`
of `getColumn`, minus the `references` case, which can raise and is handled
in `chainApply`. -/
def applyModifier (col : Col) (method : Option String) (args : List Expr) (nm : String) : Col :=
  let arg := args.head?
  match method with
  | some "notNull" => { col with nullable := false }
  | some "primaryKey" => { col with primary := some true, nullable := false }
  | some "unique" => { col with unique := some true }
  | some "array" => { col with array := some true }
  | some "$onUpdate" => { col with updateDate := some true }
  | some "default" => { col with default := defaultValOf arg }
  | some "defaultRandom" =>
      { col with generated := some "uuid", type := "uuid", nullable := false }
  | some "defaultNow" =>
      if nm ≠ "createdAt" then { col with default := some (.boolV true) } else col
  | _ => col

/-- The outward walk over the whole modifier chain
(`let call = init; while (call && isCall(call)) ... call = call.expression.expression`).
A frame whose callee is a property access applies its method's effect
(`references` may raise); any other callee carries no method name, and the
walk steps to the callee's own `.expression` — for a call-valued callee
that is the inner call's callee, so the inner call's frame is skipped. -/
def chainApply (nm : String) (col : Col) : Expr → Except String Col
  | .call (.propAccess obj m) args =>
      if m = "references" then do
        let c ← applyReferences col args.head? (args.get? 1)
        chainApply nm c obj
      else chainApply nm (applyModifier col (some m) args nm) obj
  | .call (.paren e) _ => chainApply nm col e
  | .call (.call c _) _ => chainApply nm col c
  | .call _ _ => .ok col
  | _ => .ok col

/-- Naming-convention post-processing at the end of `getColumn`. -/
def postProcessCol (nm : String) (col : Col) : Col :=
  let c := if nm = "createdAt" then { col with createDate := some true, nullable := false } else col
  if nm = "updatedAt" then { c with updateDate := some true } else c

/-- `getColumn(init, name)`.  The error case is the TypeScript runtime
TypeError raised by `const [nameArg, opts] = root.arguments` when the chain
walk ends on a node that is not a call expression. -/
def getColumn (init : Expr) (nm : String) : Except String Col :=
  if !init.isCall then .ok {}
  else
    match peelRoot init with
    | .call callee args =>
      let col1 : Col := { type := toType (escapedTextOf callee) }
      let col2 :=
        match args.head? with
        | some (.strLit t) => if t ≠ nm then { col1 with name := some t } else col1
        | _ => col1
      let col3 :=
        match args.get? 1 with
        | some (.objLit props) => props.foldl (fun c kv => applyOptProp c kv.1 kv.2) col2
        | _ => col2
      (chainApply nm col3 init).map (postProcessCol nm)
    | _ => .error "TypeError: root.arguments is not iterable"

/-! ## Table extras: composite primary keys and indices -/

/-- An index descriptor `{name, columns, unique}`.  `name` is
`root.arguments[0]?.text`, hence possibly undefined. -/
structure IndexD : Type where
  name : Option String
  columns : List String
  unique : Bool
deriving DecidableEq, Repr

/-- Peel the chained `.on(...)` frames down to the root marker call. -/
def peelOn : Expr → Expr
  | .call (.propAccess obj "on") _ => peelOn obj
  | e => e

/-- Collect the first argument's property-access names of each `.on(...)`
frame, walking from the outermost frame inward (the push order of the
source loop).  An `.on()` frame with no argument reaches
`ts.isPropertyAccessExpression(arg)` with `arg` undefined and throws. -/
def collectOnCols : Expr → Except String (List String)
  | .call (.propAccess obj "on") args =>
      match args.head? with
      | none => .error "TypeError: Cannot read properties of undefined (reading kind)"
      | some (.propAccess _ n) => do
          let rest ← collectOnCols obj
          pure (n :: rest)
      | some _ => collectOnCols obj
  | _ => .ok []

/-- Apply `primary: true, nullable: false` to one element of a composite
primary key's `columns` array (guarded on the column existing). -/
def applyPkEl (cs : List (String × Col)) (el : Expr) : List (String × Col) :=
  match el with
  | .propAccess _ n =>
      if n != "" && (assocGet cs n).isSome then
        cs.map (fun kv =>
          if kv.1 = n then (kv.1, { kv.2 with primary := some true, nullable := false }) else kv)
      else cs
  | _ => cs

/-- One element of the third-argument configuration array: either the
composite-primary-key marker or a (possibly chained) index declaration.
The column collection of an index entry may raise. -/
def pkIdxStep (st : List (String × Col) × List IndexD) (e : Expr) :
    Except String (List (String × Col) × List IndexD) :=
  match e with
  | .call callee args =>
    if escapedTextOf callee = some "primaryKey" then
      match args.head? with
      | some (.objLit props) =>
          .ok (props.foldl (fun cs kv =>
            if kv.1 = "columns" then
              match kv.2 with
              | .arrLit els => els.foldl applyPkEl cs
              | _ => cs
            else cs) st.1, st.2)
      | _ => .ok st
    else
      match peelOn e with
      | .call rootCallee rargs =>
        (match escapedTextOf rootCallee with
         | some rn =>
           if rn = "index" || rn = "uniqueIndex" then do
             let cols ← collectOnCols e
             .ok (st.1, st.2 ++ [⟨rargs.head?.bind textOf, cols, rn = "uniqueIndex"⟩])
           else .ok st
         | none => .ok st)
      | _ => .ok st
  | _ => .ok st

/-! ## Relation stubs and pass 3 collection -/

/-- A one-directional relation stub, as pushed by pass 3 and refined by the
resolver.  `fromEntity` is `var2entity[fromVar]`, hence possibly
undefined. -/
structure Stub : Type where
  fromEntity : Option String
  fromVar : Option String
  localName : String
  toEntity : String
  toVar : String
  relType : String
  inverseSide : Option String
  origKind : Option String
  customName : Option String := none
  onDelete : Option String := none
  onUpdate : Option String := none
  cascade : Bool := false
  joinColumnName : Option String := none
  isOwner : Bool := false
deriving DecidableEq, Repr

/-- The `fields`-with-array test on the options object of a `one(...)` call. -/
def hasFieldsOpt : Option Expr → Bool
  | some (.objLit props) =>
      props.any (fun kv =>
        kv.1 == "fields" &&
        (match kv.2 with
         | .arrLit _ => true
         | _ => false))
  | _ => false

/-- The relation-kind classification of pass 3 (converter.js lines 418-437),
run on the relation-builder call's target name and options object. -/
def inferRelType (kind : Option String) (opts : Option Expr) : String :=
  if kind = some "many" then "one-to-many"
  else if kind = some "one" then
    if hasFieldsOpt opts then "many-to-one" else "one-to-one"
  else if kind = some "oneToOne" then "one-to-one"
  else "many-to-one"

/-- Per-entity accumulated data (`entityData[ent]`). -/
structure EntityData : Type where
  name : String
  tableName : Option String
  columns : List (String × Col)
  relations : List Stub
  indices : List IndexD
deriving DecidableEq, Repr

def findEnt (ed : List EntityData) (key : String) : Option EntityData :=
  ed.find? (fun e => e.name == key)

/-- `entityData[entKey]?.columns?.[fk]?.name`. -/
def colPhysName (ed : List EntityData) (entKey : String) (fk : String) : Option String :=
  match findEnt ed entKey with
  | some e =>
    match assocGet e.columns fk with
    | some c => c.name
    | none => none
  | none => none

/-- One recognised key of a relation-builder call's options object,
accumulating overrides on the stub and the explicit foreign-key property
name from `fields`. -/
def applyRelOpt (acc : Stub × Option String) (kv : String × Expr) : Stub × Option String :=
  let s := acc.1
  let fk := acc.2
  let k := kv.1
  let v := kv.2
  if k = "relationName" then
    match v with
    | .strLit t => ({ s with customName := some t }, fk)
    | _ => acc
  else if k = "onDelete" then
    match v with
    | .strLit t => ({ s with onDelete := some t }, fk)
    | _ => acc
  else if k = "onUpdate" then
    match v with
    | .strLit t => ({ s with onUpdate := some t }, fk)
    | _ => acc
  else if k = "cascade" then
    match v with
    | .trueKw => ({ s with cascade := true }, fk)
    | _ => acc
  else if k = "fields" then
    match v with
    | .arrLit (el :: _) =>
      (match el with
       | .propAccess _ n => (s, some n)
       | _ => acc)
    | _ => acc
  else acc

/-- The foreign-key inference: an explicit `fields` option wins, else the
target entity's columns are scanned for one referencing the source
variable. -/
def relFk (ed : List EntityData) (fromVar : Option String) (s1 : Stub)
    (fkProp : Option String) : Option String :=
  if optTruthy fkProp then fkProp
  else
    let targetCols :=
      match findEnt ed s1.toEntity with
      | some e => e.columns
      | none => []
    match targetCols.find? (fun kv => kv.2.referencesVar == fromVar) with
    | some kv => some kv.1
    | none => fkProp

/-- The join-column assignment once a foreign key is known. -/
def relJoin (ed : List EntityData) (s1 : Stub) (fk : Option String) : Stub :=
  if optTruthy fk then
    let f := fk.getD ""
    let jc := jsOr (colPhysName ed ((s1.fromEntity).getD "undefined") f)
      (jsOr (colPhysName ed s1.toEntity f) (toSnake f))
    { s1 with joinColumnName := some jc }
  else s1

/-- Copying `onDelete`/`onUpdate`/`cascade` from the foreign-key column. -/
def relApplyCol (s2 : Stub) (colOpt : Option Col) : Stub :=
  match colOpt with
  | some c =>
    let t1 := if optTruthy c.onDelete && !optTruthy s2.onDelete then
        { s2 with onDelete := c.onDelete } else s2
    let t2 := if optTruthy c.onUpdate && !optTruthy t1.onUpdate then
        { t1 with onUpdate := c.onUpdate } else t1
    if c.cascade && !t2.cascade then { t2 with cascade := true } else t2
  | none => s2

/-- Build one relation stub from an object property `localName: call(...)`
of a `relations(...)` declaration body.  `none` models the early `return`
on a falsy target variable. -/
def processRelProp (v2e : List (String × String)) (ed : List EntityData)
    (fromVar : Option String) (localName : String) (callee : Expr) (cargs : List Expr) :
    Option Stub :=
  let kind := escapedTextOf callee
  let targVar := cargs.head?.bind escapedTextOf
  if !optTruthy targVar then none
  else
    let targ := targVar.getD ""
    let relType := inferRelType kind (cargs.get? 1)
    let base : Stub :=
      { fromEntity := assocGet v2e ((fromVar).getD "undefined")
        fromVar := fromVar
        localName := localName
        toEntity := jsOr (assocGet v2e targ) (pascal targ)
        toVar := targ
        relType := relType
        inverseSide := none
        origKind := kind }
    let s1fk :=
      match cargs.get? 1 with
      | some (.objLit props) => props.foldl applyRelOpt (base, none)
      | _ => (base, none)
    let s1 := s1fk.1
    let fk := relFk ed fromVar s1 s1fk.2
    let s2 := relJoin ed s1 fk
    let colOpt :=
      match findEnt ed ((s2.fromEntity).getD "undefined") with
      | some e => assocGet e.columns (fk.getD "null")
      | none => none
    some (relApplyCol s2 colOpt)

/-! ## Input model and passes 1 and 2 -/

/-- One top-level variable declaration: its identifier text and optional
initializer (a non-identifier binding name is represented by its JS key
coercion "undefined"). -/
structure VDecl : Type where
  name : String
  init : Option Expr

/-- A top-level statement: the converter only inspects variable statements. -/
inductive Stmt : Type where
  | varStmt (decls : List VDecl)
  | otherStmt

/-- One input source file, already parsed (`ts.createSourceFile` is the
deterministic external parser; the conversion consumes its tree). -/
structure SFile : Type where
  fileName : String
  stmts : List Stmt

/-- The declarations of all files flattened in traversal order (the source
iterates files, then statements, then declarations, in order). -/
def allDecls (files : List SFile) : List (String × VDecl) :=
  files.foldr (fun f acc =>
    (f.stmts.foldr (fun st a =>
      match st with
      | .varStmt ds => (ds.map (fun d => (f.fileName, d))) ++ a
      | .otherStmt => a) []) ++ acc) []

/-- Pass 1 step: register `var2entity` and `entity2file` for one
declaration. -/
def pass1Step (acc : List (String × String) × List (String × String))
    (fd : String × VDecl) : List (String × String) × List (String × String) :=
  match (fd.2).init with
  | some (.call (.ident "pgTable") args) =>
    let ent :=
      match args.head? with
      | some (.strLit t) => snakeToPascal t
      | _ => pascal (fd.2).name
    (assocSet acc.1 (fd.2).name ent, assocSet acc.2 ent fd.1)
  | _ => acc

/-- Pass 1: the entity registry. -/
def pass1 (files : List SFile) : List (String × String) × List (String × String) :=
  (allDecls files).foldl pass1Step ([], [])

/-- Column extraction over a table's column object. -/
def processColumns (props : List (String × Expr)) : Except String (List (String × Col)) :=
  props.foldlM (fun acc kv => do
    let c ← getColumn kv.2 kv.1
    pure (assocSet acc kv.1 c)) []

/-- `entityData[entName] ??= {...}` plus the later `indices.push`:
a fresh entity keeps the newly built data; a duplicate keeps the
first-seen data and only receives the new index descriptors. -/
def insertEntity (ed : List EntityData) (entName : String) (tn : Option String)
    (cols : List (String × Col)) (idx : List IndexD) : List EntityData :=
  if ed.any (fun e => e.name == entName) then
    ed.map (fun e => if e.name == entName then { e with indices := e.indices ++ idx } else e)
  else ed ++ [⟨entName, tn, cols, [], idx⟩]

/-- Pass 2 handling of one `pgTable` declaration. -/
def processTable (v2e : List (String × String)) (ed : List EntityData)
    (dname : String) (args : List Expr) : Except String (List EntityData) := do
  let tableName :=
    match args.head? with
    | some (.strLit t) => some t
    | _ => none
  let entName := (assocGet v2e dname).getD "undefined"
  let cols ←
    match args.get? 1 with
    | some (.objLit props) => processColumns props
    | _ => pure []
  let pr ←
    match args.get? 2 with
    | some (.arrow (.arrLit els)) => els.foldlM pkIdxStep (cols, [])
    | _ => pure (cols, [])
  pure (insertEntity ed entName tableName pr.1 pr.2)

/-- Pass 2/3 handling of one `relations` declaration: append the collected
stubs.  A `relations(...)` call with fewer than two arguments reaches
`ts.isArrowFunction(fn)` with `fn` undefined and throws; a present second
argument that is not an arrow function returns gracefully. -/
def processRelations (v2e : List (String × String)) (ed : List EntityData)
    (stubs : List Stub) (args : List Expr) : Except String (List Stub) :=
  let fromVar := args.head?.bind escapedTextOf
  match args.get? 1 with
  | none => .error "TypeError: Cannot read properties of undefined (reading kind)"
  | some (.arrow body0) =>
    let body :=
      match body0 with
      | .paren inner => inner
      | b => b
    .ok (match body with
         | .objLit props =>
           props.foldl (fun st kv =>
             match kv.2 with
             | .call c a =>
               match processRelProp v2e ed fromVar kv.1 c a with
               | some s => st ++ [s]
               | none => st
             | _ => st) stubs
         | _ => stubs)
  | some _ => .ok stubs

/-- Pass 2 step for one declaration. -/
def pass2Step (v2e : List (String × String))
    (acc : List EntityData × List Stub) (fd : String × VDecl) :
    Except String (List EntityData × List Stub) :=
  match (fd.2).init with
  | some (.call (.ident "pgTable") args) => do
      let ed' ← processTable v2e acc.1 (fd.2).name args
      pure (ed', acc.2)
  | some (.call (.ident "relations") args) => do
      let st2 ← processRelations v2e acc.1 acc.2 args
      pure (acc.1, st2)
  | _ => pure acc

/-- Pass 2: build entity data and collect relation stubs in traversal
order. -/
def pass2 (v2e : List (String × String)) (files : List SFile) :
    Except String (List EntityData × List Stub) :=
  (allDecls files).foldlM (pass2Step v2e) ([], [])

/-! ## The relation resolver -/

/-- Functional in-place update of one list slot. -/
def setAt : List Stub → Nat → (Stub → Stub) → List Stub
  | [], _, _ => []
  | x :: xs, 0, f => f x :: xs
  | x :: xs, n + 1, f => x :: setAt xs n f

/-- Entity-pair reversal between two stubs: the two strict-equality entity
comparisons of the resolver's `find` predicate
(`x.fromEntity === r1.toEntity && x.toEntity === r1.fromEntity`; a
strict-equality comparison of a string against `undefined` is false).  The
two conjuncts are mutually transposed, so the predicate is symmetric. -/
def revMatchB (r x : Stub) : Bool :=
  x.fromEntity == some r.toEntity && r.fromEntity == some x.toEntity

/-- The full predicate of the resolver's `find`: reversed entity pair and
not already paired. -/
def matchPred (r1 : Stub) (x : Stub) : Bool :=
  revMatchB r1 x && !optTruthy x.inverseSide

/-- Index of the first list element satisfying `p`. -/
def findFirst (p : Stub → Bool) : List Stub → Option Nat
  | [] => none
  | x :: xs => if p x then some 0 else (findFirst p xs).map (· + 1)

def dStub : Stub :=
  { fromEntity := none, fromVar := none, localName := "", toEntity := "",
    toVar := "", relType := "", inverseSide := none, origKind := none }

def stubGet (l : List Stub) (i : Nat) : Stub := (l.get? i).getD dStub

/-- One iteration of the resolver loop at index `i`, returning the updated
array and, when a pairing happened, the ghost event `(i, j)` recording
which slots were paired (the event list is auxiliary bookkeeping used only
to state invariants; the array component is the source loop exactly). -/
def resolveStep (A : List Stub) (i : Nat) : List Stub × Option (Nat × Nat) :=
  match A.get? i with
  | none => (A, none)
  | some r1 =>
    if optTruthy r1.inverseSide then (A, none)
    else
      match findFirst (matchPred r1) A with
      | none => (A, none)
      | some j =>
        let r2 := stubGet A j
        let A2 := setAt (setAt A i (fun s => { s with inverseSide := some r2.localName })) j
          (fun s => { s with inverseSide := some r1.localName })
        if r1.origKind == some "many" && r2.origKind == some "many" then
          let B := setAt (setAt A2 j (fun s => { s with relType := "many-to-many" })) i
            (fun s => { s with relType := "many-to-many" })
          (setAt B i (fun s => { s with isOwner := true }), some (i, j))
        else if r1.origKind == some "one" && r2.origKind == some "one" then
          let B := setAt (setAt A2 j (fun s => { s with relType := "one-to-one" })) i
            (fun s => { s with relType := "one-to-one" })
          let C :=
            if optTruthy r1.joinColumnName then setAt B i (fun s => { s with isOwner := true })
            else if optTruthy r2.joinColumnName then
              setAt B j (fun s => { s with isOwner := true })
            else B
          (C, some (i, j))
        else (A2, some (i, j))

/-- The resolver loop over all original indices, with the ghost event
list. -/
def resolveAux (stubs : List Stub) : List Stub × List (Nat × Nat) :=
  (List.range stubs.length).foldl
    (fun acc i =>
      let r := resolveStep acc.1 i
      (r.1, acc.2 ++ r.2.toList))
    (stubs, [])

/-- The resolved stub array. -/
def resolveStubs (stubs : List Stub) : List Stub := (resolveAux stubs).1

/-- The ghost pairing events, in the order they fired. -/
def resolveEvents (stubs : List Stub) : List (Nat × Nat) := (resolveAux stubs).2

/-- The resolver state after the first `k` loop iterations. -/
def resolvePrefix (stubs : List Stub) (k : Nat) : List Stub :=
  (List.range k).foldl (fun A i => (resolveStep A i).1) stubs

/-! ## Distribution onto entities -/

/-- `entityData[r.fromEntity].relations` with the push guarded on duplicate
local names; the error is the TypeError raised when `r.fromEntity` names no
registered entity. -/
def distribute (ed : List EntityData) (stubs : List Stub) :
    Except String (List EntityData) :=
  stubs.foldlM (fun ed r =>
    let key := (r.fromEntity).getD "undefined"
    if ed.any (fun e => e.name == key) then
      .ok (ed.map (fun e =>
        if e.name == key then
          if e.relations.any (fun x => x.localName == r.localName) then e
          else { e with relations := e.relations ++ [r] }
        else e))
    else .error "TypeError: Cannot read properties of undefined (reading relations)") ed

/-! ## The code emitter -/

/-- The fixed field-emission order. -/
def ORDER : List String :=
  ["type", "enum", "precision", "scale", "length", "name", "array", "primary",
   "generated", "unique", "nullable", "default", "createDate", "updateDate"]

/-- The `JS_DOC_TYPE_MAP` table. -/
def jsDocTypeMap : String → Option String
  | "uuid" => some "string"
  | "varchar" => some "string"
  | "char" => some "string"
  | "text" => some "string"
  | "boolean" => some "boolean"
  | "int" => some "number"
  | "integer" => some "number"
  | "smallint" => some "number"
  | "bigint" => some "number"
  | "numeric" => some "number"
  | "decimal" => some "number"
  | "float" => some "number"
  | "double" => some "number"
  | "timestamp" => some "Date"
  | "timestamptz" => some "Date"
  | "date" => some "Date"
  | "time" => some "Date"
  | "json" => some "object"
  | "jsonb" => some "object"
  | "geometry" => some "object"
  | "geography" => some "object"
  | _ => none

/-- A column-field value as seen by `printColumnField` (string, boolean,
number carried as literal text, or the enum string array). -/
inductive FieldVal : Type where
  | fstr (s : String)
  | fbool (b : Bool)
  | fnum (t : String)
  | flist (l : List String)

/-- `cfg[k]` for the keys of `ORDER` (`none` = `undefined`, skipped). -/
def fieldValOf (c : Col) : String → Option FieldVal
  | "type" => some (.fstr c.type)
  | "enum" => c.enum.map .flist
  | "precision" => c.precision.map .fnum
  | "scale" => c.scale.map .fnum
  | "length" => c.length.map .fnum
  | "name" => c.name.map .fstr
  | "array" => c.array.map .fbool
  | "primary" => c.primary.map .fbool
  | "generated" => c.generated.map .fstr
  | "unique" => c.unique.map .fbool
  | "nullable" => some (.fbool c.nullable)
  | "default" =>
      c.default.map (fun d =>
        match d with
        | .num t => .fnum t
        | .str s => .fstr s
        | .boolV b => .fbool b)
  | "createDate" => c.createDate.map .fbool
  | "updateDate" => c.updateDate.map .fbool
  | _ => none

/-- `printColumnField`: quote unquoted strings, special-case `enum`. -/
def printColumnField (k : String) (v : FieldVal) (cfg : Col) : String :=
  if k = "enum" then
    if cfg.type = "enum" then
      match v with
      | .flist l =>
          "        enum: [" ++ String.intercalate ", " (l.map (fun e => "'" ++ e ++ "'")) ++ "],"
      | _ => ""
    else ""
  else
    match v with
    | .fstr s =>
        if !quotedTest s then "        " ++ k ++ ": '" ++ s ++ "',"
        else "        " ++ k ++ ": " ++ s ++ ","
    | .fbool b => "        " ++ k ++ ": " ++ (if b then "true" else "false") ++ ","
    | .fnum t => "        " ++ k ++ ": " ++ t ++ ","
    | .flist l => "        " ++ k ++ ": " ++ String.intercalate "," l ++ ","

/-- Emit one column block. -/
def renderColumn (cn : String) (cfg : Col) : List String :=
  ["      " ++ cn ++ ": \x7b"] ++
  (ORDER.foldl (fun acc k =>
    if k = "length" && cfg.type = "enum" then acc
    else
      match fieldValOf cfg k with
      | none => acc
      | some v =>
        let line := printColumnField k v cfg
        if line ≠ "" then acc ++ [line] else acc) []) ++
  ["      \x7d,"]

/-- `printRelation`. -/
def printRelation (r : Stub) : String :=
  String.intercalate "\n" (
    ["      " ++ r.localName ++ ": \x7b",
     "        target: '" ++ r.toEntity ++ "',",
     "        type: '" ++ r.relType ++ "',"] ++
    (if optTruthy r.inverseSide then
       ["        inverseSide: '" ++ (r.inverseSide).getD "" ++ "',"] else []) ++
    (if r.relType != "one-to-many" && optTruthy r.joinColumnName then
       ["        joinColumn: \x7b name: '" ++ (r.joinColumnName).getD "" ++ "' \x7d,"] else []) ++
    (if r.relType == "many-to-many" && r.isOwner then ["        joinTable: true,"] else []) ++
    (if r.relType == "many-to-one" || r.relType == "one-to-one" then
       (if optTruthy r.onDelete then ["        onDelete: '" ++ (r.onDelete).getD "" ++ "',"] else []) ++
       (if optTruthy r.onUpdate then ["        onUpdate: '" ++ (r.onUpdate).getD "" ++ "',"] else [])
     else []) ++
    (if r.cascade then ["        cascade: true,"] else []) ++
    ["      \x7d,"])

/-- One index line of the `indices` block. -/
def printIndex (ix : IndexD) : String :=
  "      \x7b name: '" ++ (ix.name).getD "undefined" ++ "', columns: [" ++
    String.intercalate ", " (ix.columns.map (fun c => "'" ++ c ++ "'")) ++ "]" ++
    (if ix.unique then ", unique: true" else "") ++ " \x7d,"

/-- Render one entity's `EntitySchema` chunk (joined and trimmed). -/
def renderEntity (e : EntityData) : String :=
  let colLines := e.columns.foldl (fun acc kv => acc ++ renderColumn kv.1 kv.2) []
  let lines :=
    [e.name ++ ": new EntitySchema(\x7b",
     "    name: '" ++ e.name ++ "',",
     "    tableName: '" ++ (e.tableName).getD "null" ++ "',",
     "    columns: \x7b"] ++ colLines ++ ["    \x7d,"] ++
    (if e.relations.length ≠ 0 then
       ["    relations: \x7b"] ++ e.relations.map printRelation ++ ["    \x7d,"] else []) ++
    (if e.indices.length ≠ 0 then
       ["    indices: ["] ++ e.indices.map printIndex ++ ["    ],"] else []) ++
    ["  \x7d),"]
  jsTrim (String.intercalate "\n" lines)

/-- Group rendered chunks by originating file (`fileOutputMap`). -/
def buildFileMap (ed : List EntityData) (e2f : List (String × String)) :
    List (String × List String) :=
  ed.foldl (fun fom e =>
    assocAppend fom ((assocGet e2f e.name).getD "undefined") (renderEntity e)) []

/-- The per-entity typedef comment block. -/
def typedefOf (e : EntityData) : String :=
  let fields := String.intercalate "\n" (e.columns.map (fun kv =>
    let jsType :=
      match kv.2.enum with
      | some l => "'" ++ String.intercalate "' | '" l ++ "'"
      | none => jsOr (jsDocTypeMap kv.2.type) "any"
    " * @property \x7b" ++ jsType ++ "\x7d " ++ kv.1))
  "/**\n * @typedef \x7bObject\x7d " ++ e.name ++ "\n" ++ fields ++ "\n */"

/-- Wrap one schema chunk for `module.exports` (type annotation plus the
trailing-comma strip). -/
def wrapSchema (s : String) : String :=
  match entityNameOf s with
  | some en =>
      "  /** @type \x7btypeorm.EntitySchema<" ++ en ++ ">\x7d */\n  " ++ stripTrailingComma s
  | none => "  " ++ stripTrailingComma s

/-- Assemble one output file's text. -/
def buildContent (ed : List EntityData) (schemas : List String) : String :=
  let typedefs := (ed.filter (fun e =>
    schemas.any (fun s => containsStr s ("name: '" ++ e.name ++ "'")))).map typedefOf
  String.intercalate "\n" (
    ["const typeorm = require('typeorm');",
     "const \x7b EntitySchema \x7d = typeorm;",
     ""] ++ typedefs ++
    ["",
     "module.exports = \x7b",
     String.intercalate ",\n" (schemas.map wrapSchema),
     "\x7d;"])

/-- The final `filesOutput` map. -/
def emitAll (ed : List EntityData) (e2f : List (String × String)) :
    List (String × String) :=
  (buildFileMap ed e2f).foldl (fun outp kv =>
    assocSet outp (tsToJs kv.1) (buildContent ed kv.2)) []

/-! ## The whole conversion -/

/-- The conversion pipeline up to the finished entity model (everything the
emitter reads). -/
def buildEntities (files : List SFile) : Except String (List EntityData) := do
  let v2e := (pass1 files).1
  let pr ← pass2 v2e files
  distribute pr.1 (resolveStubs pr.2)

/-- `convertSchemas`: ordered parsed files in, output text map out. -/
def convertSchemas (files : List SFile) : Except String (List (String × String)) := do
  let ed ← buildEntities files
  pure (emitAll ed (pass1 files).2)

/-! ## Syntactic side conditions used in theorem statements -/

/-- A column initializer on which `getColumn` cannot hit the
`root.arguments` destructuring TypeError: either not a call, or a chain
whose root is itself a call. -/
def rootedCol (e : Expr) : Bool := !e.isCall || (peelRoot e).isCall

/-- The method names of the outward modifier walk, mirroring `chainApply`'s
traversal (a call-valued callee carries no method name and the walk steps
to its own callee). -/
def chainMethods : Expr → List String
  | .call (.propAccess obj m) _ => m :: chainMethods obj
  | .call (.paren e) _ => chainMethods e
  | .call (.call c _) _ => chainMethods c
  | _ => []

/-- No `references` frame of the modifier walk lacks its first argument:
the chain avoids the `.references()` TypeError. -/
def refSafe : Expr → Bool
  | .call (.propAccess obj m) args => (m != "references" || !args.isEmpty) && refSafe obj
  | .call (.paren e) _ => refSafe e
  | .call (.call c _) _ => refSafe c
  | _ => true

/-- No `.on` frame of an index chain lacks its first argument. -/
def onSafe : Expr → Bool
  | .call (.propAccess obj "on") args => !args.isEmpty && onSafe obj
  | _ => true

/-- A third-argument configuration element avoids the `.on()` TypeError:
only an index/uniqueIndex chain collects `.on` arguments. -/
def idxSafe (e : Expr) : Bool :=
  match e with
  | .call callee _ =>
    if escapedTextOf callee = some "primaryKey" then true
    else
      (match peelOn e with
       | .call rootCallee _ =>
         (match escapedTextOf rootCallee with
          | some rn => if rn = "index" || rn = "uniqueIndex" then onSafe e else true
          | none => true)
       | _ => true)
  | _ => true

/-- Well-formedness of one declaration against the pass-1 registry: a
`pgTable` declaration's column initializers are all rooted in a direct
call with no argument-less `references` frame, its index entries carry
their `.on` arguments, and a `relations` declaration has a second argument
and a first argument naming a registered table variable. -/
def wfDecl (v2e : List (String × String)) (fd : String × VDecl) : Bool :=
  match (fd.2).init with
  | some (.call (.ident "pgTable") args) =>
    (match args.get? 1 with
     | some (.objLit props) => props.all (fun kv => rootedCol kv.2 && refSafe kv.2)
     | _ => true) &&
    (match args.get? 2 with
     | some (.arrow (.arrLit els)) => els.all idxSafe
     | _ => true)
  | some (.call (.ident "relations") args) =>
    (match args.head? with
     | some (.ident v) => (assocGet v2e v).isSome
     | _ => false) &&
    (args.get? 1).isSome
  | _ => true

/-- A well-formedness check on the input: every declaration is well-formed
against the pass-1 registry. -/
def wfInput (files : List SFile) : Bool :=
  (allDecls files).all (wfDecl (pass1 files).1)

/-- An entity with the given name is registered. -/
def entPresent (ed : List EntityData) (n : String) : Bool :=
  ed.any (fun e => e.name == n)

/-- The stub's source entity is a value of the pass-1 registry. -/
def stubSrcReg (v2e : List (String × String)) (s : Stub) : Prop :=
  ∃ d ent, assocGet v2e d = some ent ∧ s.fromEntity = some ent

/-- An `enum` key with an array value. -/
def enumOptPred (kv : String × Expr) : Bool :=
  kv.1 == "enum" &&
  (match kv.2 with
   | .arrLit _ => true
   | _ => false)

/-- A `withTimezone` key with literal `true`. -/
def tzOptPred (kv : String × Expr) : Bool :=
  kv.1 == "withTimezone" &&
  (match kv.2 with
   | .trueKw => true
   | _ => false)

/-- The options object of the root call has an `enum` key with an array
value (the override that retypes a column to "enum"). -/
def hasEnumOpt (e : Expr) : Bool :=
  match peelRoot e with
  | .call _ args =>
    (match args.get? 1 with
     | some (.objLit props) => props.any enumOptPred
     | _ => false)
  | _ => false

/-- The options object of the root call has `withTimezone: true` (the
override that retypes a column to "timestamptz"). -/
def hasTZOpt (e : Expr) : Bool :=
  match peelRoot e with
  | .call _ args =>
    (match args.get? 1 with
     | some (.objLit props) => props.any tzOptPred
     | _ => false)
  | _ => false

/-- The target name of the chain's root call. -/
def rootNameOf (e : Expr) : Option String :=
  match peelRoot e with
  | .call callee _ => escapedTextOf callee
  | _ => none

/-! ## Proof-layer reformulations of the resolver's pairing branch
(the same updates as `resolveStep`'s event branch, factored so the
per-slot results can be named in invariants). -/

/-- The array update performed by a firing resolver iteration, with
`r1 = A[i]` and `r2 = A[j]` (exactly the event branch of `resolveStep`). -/
def resolveFire (A : List Stub) (i j : Nat) (r1 r2 : Stub) : List Stub :=
  let A2 := setAt (setAt A i (fun s => { s with inverseSide := some r2.localName })) j
    (fun s => { s with inverseSide := some r1.localName })
  if r1.origKind == some "many" && r2.origKind == some "many" then
    setAt (setAt (setAt A2 j (fun s => { s with relType := "many-to-many" })) i
      (fun s => { s with relType := "many-to-many" })) i (fun s => { s with isOwner := true })
  else if r1.origKind == some "one" && r2.origKind == some "one" then
    let B := setAt (setAt A2 j (fun s => { s with relType := "one-to-one" })) i
      (fun s => { s with relType := "one-to-one" })
    if optTruthy r1.joinColumnName then setAt B i (fun s => { s with isOwner := true })
    else if optTruthy r2.joinColumnName then setAt B j (fun s => { s with isOwner := true })
    else B
  else A2

/-- The slot-`i` result of a firing iteration with distinct partners. -/
def fireI (r1 r2 : Stub) : Stub :=
  let s1 := { r1 with inverseSide := some r2.localName }
  if r1.origKind == some "many" && r2.origKind == some "many" then
    { s1 with relType := "many-to-many", isOwner := true }
  else if r1.origKind == some "one" && r2.origKind == some "one" then
    if optTruthy r1.joinColumnName then { s1 with relType := "one-to-one", isOwner := true }
    else { s1 with relType := "one-to-one" }
  else s1

/-- The slot-`j` result of a firing iteration with distinct partners. -/
def fireJ (r1 r2 : Stub) : Stub :=
  let s2 := { r2 with inverseSide := some r1.localName }
  if r1.origKind == some "many" && r2.origKind == some "many" then
    { s2 with relType := "many-to-many" }
  else if r1.origKind == some "one" && r2.origKind == some "one" then
    if optTruthy r1.joinColumnName then { s2 with relType := "one-to-one" }
    else if optTruthy r2.joinColumnName then { s2 with relType := "one-to-one", isOwner := true }
    else { s2 with relType := "one-to-one" }
  else s2

/-- The slot result of a self-pairing iteration (`i = j`): the two
`inverseSide` writes collapse to the stub's own local name, and both sides
of each branch test hit the same object. -/
def fireSelf (r1 : Stub) : Stub :=
  let s := { r1 with inverseSide := some r1.localName }
  if r1.origKind == some "many" then { s with relType := "many-to-many", isOwner := true }
  else if r1.origKind == some "one" then
    if optTruthy r1.joinColumnName then { s with relType := "one-to-one", isOwner := true }
    else { s with relType := "one-to-one" }
  else s

/-- The ghost events emitted by loop iteration `k`. -/
def stepEvents (stubs : List Stub) (k : Nat) : List (Nat × Nat) :=
  ((resolveStep (resolvePrefix stubs k) k).2).toList

/-! ## Concrete inputs used by the closed theorems -/

/-- `varchar("username").notNull()`. -/
def exVarcharNotNull : Expr :=
  .call (.propAccess (.call (.ident "varchar") [.strLit "username"]) "notNull") []

def exVarcharCol : Col := { type := "varchar", nullable := false }

/-- `db.varchar("x")`: a chain bottoming out in a plain property access. -/
def exBroken : Expr := .call (.propAccess (.ident "db") "varchar") [.strLit "x"]

/-- `money("m", { enum: ["a"] })`: unmapped root name with an enum option. -/
def exMoneyEnum : Expr :=
  .call (.ident "money") [.strLit "m", .objLit [("enum", .arrLit [.strLit "a"])]]

/-- `money("m")`: an unmapped root name with no options. -/
def exMoney : Expr := .call (.ident "money") [.strLit "m"]

/-- `text("x").references()`: rooted in a direct call, but the bare
`references` frame has no argument. -/
def exRefsBroken : Expr :=
  .call (.propAccess (.call (.ident "text") [.strLit "x"]) "references") []

/-- `pgTable("users", { id: uuid("id").primaryKey(), name: varchar("name").notNull() })`. -/
def exUsersTbl : Expr :=
  .call (.ident "pgTable") [.strLit "users",
    .objLit [("id", .call (.propAccess (.call (.ident "uuid") [.strLit "id"]) "primaryKey") []),
             ("name", .call (.propAccess (.call (.ident "varchar") [.strLit "name"]) "notNull") [])]]

/-- `pgTable("posts", { id, authorId: uuid("author_id").references(() => users.id) })`. -/
def exPostsTbl : Expr :=
  .call (.ident "pgTable") [.strLit "posts",
    .objLit [("id", .call (.propAccess (.call (.ident "int") [.strLit "id"]) "primaryKey") []),
             ("authorId", .call (.propAccess (.call (.ident "uuid") [.strLit "author_id"]) "references")
               [.arrow (.propAccess (.ident "users") "id")])]]

/-- `relations(users, (h) => ({ posts: many(posts) }))`. -/
def exUsersRel : Expr :=
  .call (.ident "relations") [.ident "users",
    .arrow (.objLit [("posts", .call (.ident "many") [.ident "posts"])])]

/-- `relations(posts, (h) => ({ author: one(users, { fields: [posts.authorId], references: [users.id] }) }))`. -/
def exPostsRel : Expr :=
  .call (.ident "relations") [.ident "posts",
    .arrow (.objLit [("author", .call (.ident "one") [.ident "users",
      .objLit [("fields", .arrLit [.propAccess (.ident "posts") "authorId"]),
               ("references", .arrLit [.propAccess (.ident "users") "id"])]])])]

/-- A small well-formed two-table input with a bidirectional relation. -/
def exInput1 : List SFile :=
  [⟨"schema.ts",
    [.varStmt [⟨"users", some exUsersTbl⟩, ⟨"posts", some exPostsTbl⟩],
     .varStmt [⟨"usersRelations", some exUsersRel⟩, ⟨"postsRelations", some exPostsRel⟩]]⟩]

/-- A table whose third argument declares
`uniqueIndex("idx").on(t.a).on(t.b)`. -/
def exIdxTbl : Expr :=
  .call (.ident "pgTable") [.strLit "users",
    .objLit [("a", .call (.ident "int") [.strLit "a"]),
             ("b", .call (.ident "int") [.strLit "b"])],
    .arrow (.arrLit [.call (.propAccess (.call (.propAccess
      (.call (.ident "uniqueIndex") [.strLit "idx"]) "on")
      [.propAccess (.ident "t") "a"]) "on") [.propAccess (.ident "t") "b"]])]

def exIdxInput : List SFile := [⟨"s.ts", [.varStmt [⟨"users", some exIdxTbl⟩]]⟩]

/-- A `relations(users, ...)` declaration whose variable `users` names no
table declaration. -/
def exBadRelInput : List SFile :=
  [⟨"s.ts", [.varStmt [⟨"usersRelations", some exUsersRel⟩]]⟩]

/-- A `relations(users)` declaration with only one argument, next to a
proper table declaration. -/
def exOneArgRel : List SFile :=
  [⟨"s.ts", [.varStmt [⟨"users", some exUsersTbl⟩,
    ⟨"usersRelations", some (.call (.ident "relations") [.ident "users"])⟩]]⟩]

/-- A `relations` declaration whose single builder call uses the marker
`oneToOne`. -/
def exOneToOneInput : List SFile :=
  [⟨"r.ts", [.varStmt [⟨"r", some (.call (.ident "relations") [.ident "a",
    .arrow (.objLit [("b", .call (.ident "oneToOne") [.ident "b"])])])⟩]]⟩]

/-- Two mutually reverse stubs both declared with the `oneToOne` marker,
one of which carries a resolved join column. -/
def exC5Stubs : List Stub :=
  [{ fromEntity := some "A", fromVar := some "a", localName := "x", toEntity := "B",
     toVar := "b", relType := "one-to-one", inverseSide := none,
     origKind := some "oneToOne", joinColumnName := some "b_id" },
   { fromEntity := some "B", fromVar := some "b", localName := "y", toEntity := "A",
     toVar := "a", relType := "one-to-one", inverseSide := none,
     origKind := some "oneToOne" }]

/-- A single self-referential stub declared with the to-many marker. -/
def exSelfStub : Stub :=
  { fromEntity := some "Categories", fromVar := some "categories",
    localName := "children", toEntity := "Categories", toVar := "categories",
    relType := "one-to-many", inverseSide := none, origKind := some "many" }

/-- The expected resolver output for `exSelfStub`: paired with itself and
refined to an owning many-to-many. -/
def exSelfStubResolved : Stub :=
  { exSelfStub with inverseSide := some "children", relType := "many-to-many", isOwner := true }

/-- A pair of mutually reverse stubs declared `many`/`one` (the witness
input for the pairing theorems). -/
def exPairStubs : List Stub :=
  [{ fromEntity := some "Users", fromVar := some "users", localName := "posts",
     toEntity := "Posts", toVar := "posts", relType := "one-to-many",
     inverseSide := none, origKind := some "many" },
   { fromEntity := some "Posts", fromVar := some "posts", localName := "author",
     toEntity := "Users", toVar := "users", relType := "many-to-one",
     inverseSide := none, origKind := some "one", joinColumnName := some "author_id" }]

/-- Two mutually reverse to-many stubs (the owner witness input). -/
def exManyStubs : List Stub :=
  [{ fromEntity := some "Users", fromVar := some "users", localName := "groups",
     toEntity := "Groups", toVar := "groups", relType := "one-to-many",
     inverseSide := none, origKind := some "many" },
   { fromEntity := some "Groups", fromVar := some "groups", localName := "members",
     toEntity := "Users", toVar := "users", relType := "one-to-many",
     inverseSide := none, origKind := some "many" }]

/-! ## Basic lemmas about the list gadgets -/

theorem setAt_length (l : List Stub) (i : Nat) (f : Stub → Stub) :
    (setAt l i f).length = l.length := by
  induction l generalizing i with
  | nil => rfl
  | cons x xs ih =>
    cases i with
    | zero => rfl
    | succ n => simpa [setAt] using ih n

theorem setAt_get (l : List Stub) (i k : Nat) (f : Stub → Stub) :
    (setAt l i f).get? k = if k = i then (l.get? i).map f else l.get? k := by
  induction l generalizing i k with
  | nil => simp [setAt]
  | cons x xs ih =>
    cases i with
    | zero =>
      cases k with
      | zero => simp [setAt]
      | succ m => simp [setAt]
    | succ n =>
      cases k with
      | zero => simp [setAt]
      | succ m =>
        simp only [setAt, List.get?]
        rw [ih n m]
        by_cases h : m = n
        · simp [h]
        · simp [h, fun hc => h (Nat.succ_injective hc)]

theorem setAt_getElem (l : List Stub) (i k : Nat) (f : Stub → Stub) :
    (setAt l i f)[k]? = if k = i then l[i]?.map f else l[k]? := by
  have := setAt_get l i k f
  simpa [List.get?_eq_getElem?] using this

theorem findFirst_some {p : Stub → Bool} {l : List Stub} {j : Nat}
    (h : findFirst p l = some j) :
    ∃ x, l.get? j = some x ∧ p x = true ∧
      ∀ k, k < j → ∀ y, l.get? k = some y → p y = false := by
  induction l generalizing j with
  | nil => simp [findFirst] at h
  | cons x xs ih =>
    by_cases hp : p x = true
    · simp [findFirst, hp] at h
      subst h
      exact ⟨x, rfl, hp, fun k hk => absurd hk (Nat.not_lt_zero k)⟩
    · simp [findFirst, Bool.eq_false_iff.mpr hp] at h
      obtain ⟨j', hj', rfl⟩ := h
      obtain ⟨y, hy, hpy, hmin⟩ := ih hj'
      refine ⟨y, hy, hpy, ?_⟩
      intro k hk z hz
      cases k with
      | zero =>
        simp [List.get?] at hz
        subst hz
        exact Bool.eq_false_iff.mpr hp
      | succ m =>
        exact hmin m (Nat.lt_of_succ_lt_succ hk) z hz

theorem findFirst_none {p : Stub → Bool} {l : List Stub}
    (h : findFirst p l = none) :
    ∀ k y, l.get? k = some y → p y = false := by
  induction l with
  | nil => intro k y hy; simp at hy
  | cons x xs ih =>
    by_cases hp : p x = true
    · simp [findFirst, hp] at h
    · intro k y hy
      cases k with
      | zero =>
        simp [List.get?] at hy
        subst hy
        exact Bool.eq_false_iff.mpr hp
      | succ m =>
        simp [findFirst, Bool.eq_false_iff.mpr hp] at h
        exact ih h m y hy

theorem findFirst_eq_none {p : Stub → Bool} {l : List Stub}
    (h : ∀ k y, l.get? k = some y → p y = false) :
    findFirst p l = none := by
  induction l with
  | nil => rfl
  | cons x xs ih =>
    have hx : p x = false := h 0 x rfl
    simp [findFirst, hx]
    exact ih (fun k y hy => h (k + 1) y hy)

/-! ## Per-step resolver lemmas -/

theorem resolveStep_length (A : List Stub) (i : Nat) :
    (resolveStep A i).1.length = A.length := by
  unfold resolveStep
  repeat' (first | split | (simp only []; split))
  all_goals simp [setAt_length]

theorem setAt_get_map {α : Type} (g : Stub → α) (l : List Stub) (i k : Nat)
    (f : Stub → Stub) (hf : ∀ s, g (f s) = g s) :
    ((setAt l i f).get? k).map g = (l.get? k).map g := by
  rw [setAt_get]
  by_cases h : k = i
  · subst h
    cases l.get? k with
    | none => simp
    | some s => simp [hf]
  · simp [h]

theorem resolveStep_map {α : Type} (g : Stub → α)
    (h1 : ∀ s v, g { s with inverseSide := v } = g s)
    (h2 : ∀ s v, g { s with relType := v } = g s)
    (h3 : ∀ s v, g { s with isOwner := v } = g s)
    (A : List Stub) (i : Nat) :
    ∀ m, ((resolveStep A i).1.get? m).map g = (A.get? m).map g := by
  intro m
  unfold resolveStep
  repeat' (first | split | (simp only []; split))
  all_goals first
  | rfl
  | (rw [setAt_get_map g _ _ _ _ (fun s => h3 s true),
         setAt_get_map g _ _ _ _ (fun s => h2 s _),
         setAt_get_map g _ _ _ _ (fun s => h2 s _),
         setAt_get_map g _ _ _ _ (fun s => h1 s _),
         setAt_get_map g _ _ _ _ (fun s => h1 s _)])
  | (rw [setAt_get_map g _ _ _ _ (fun s => h2 s _),
         setAt_get_map g _ _ _ _ (fun s => h2 s _),
         setAt_get_map g _ _ _ _ (fun s => h1 s _),
         setAt_get_map g _ _ _ _ (fun s => h1 s _)])
  | (rw [setAt_get_map g _ _ _ _ (fun s => h1 s _),
         setAt_get_map g _ _ _ _ (fun s => h1 s _)])

theorem resolveStep_cases (A : List Stub) (i : Nat) :
    ((resolveStep A i).2 = none ∧ (resolveStep A i).1 = A ∧
      (∀ r1, A.get? i = some r1 → optTruthy r1.inverseSide = false →
        findFirst (matchPred r1) A = none)) ∨
    (∃ r1 j, A.get? i = some r1 ∧ optTruthy r1.inverseSide = false ∧
      findFirst (matchPred r1) A = some j ∧ (resolveStep A i).2 = some (i, j) ∧
      (resolveStep A i).1 = resolveFire A i j r1 (stubGet A j)) := by
  unfold resolveStep
  split
  next heq =>
    exact Or.inl ⟨rfl, rfl, fun r1 hr1 _ => by rw [heq] at hr1; cases hr1⟩
  next r1 heq =>
    split
    next ht =>
      refine Or.inl ⟨rfl, rfl, fun r1' hr1' hf => ?_⟩
      rw [heq] at hr1'
      cases hr1'
      rw [ht] at hf
      cases hf
    next ht =>
      split
      next hf =>
        refine Or.inl ⟨rfl, rfl, fun r1' hr1' _ => ?_⟩
        rw [heq] at hr1'
        cases hr1'
        exact hf
      next j hf =>
        refine Or.inr ⟨r1, j, heq, by simpa using ht, hf, ?_, ?_⟩
        · simp only []
          repeat' split
          all_goals rfl
        · unfold resolveFire
          simp only []
          repeat' split
          all_goals rfl

theorem resolveFire_get_other {A : List Stub} {i j m : Nat} {r1 r2 : Stub}
    (hmi : m ≠ i) (hmj : m ≠ j) :
    (resolveFire A i j r1 r2).get? m = A.get? m := by
  unfold resolveFire
  repeat' (first | split | (simp only []; split))
  all_goals simp [setAt_getElem, hmi, hmj]

theorem resolveFire_get_i {A : List Stub} {i j : Nat} {r1 r2 : Stub}
    (hij : i ≠ j) (hA : A.get? i = some r1) :
    (resolveFire A i j r1 r2).get? i = some (fireI r1 r2) := by
  unfold resolveFire fireI
  repeat' (first | split | (simp only []; split))
  all_goals simp_all [setAt_getElem, hij, Ne.symm hij, hA, List.get?_eq_getElem?]

theorem resolveFire_get_j {A : List Stub} {i j : Nat} {r1 r2 : Stub}
    (hij : i ≠ j) (hA : A.get? j = some r2) :
    (resolveFire A i j r1 r2).get? j = some (fireJ r1 r2) := by
  unfold resolveFire fireJ
  repeat' (first | split | (simp only []; split))
  all_goals simp_all [setAt_getElem, hij, Ne.symm hij, hA, List.get?_eq_getElem?]

theorem resolveFire_get_self {A : List Stub} {i : Nat} {r1 : Stub}
    (hA : A.get? i = some r1) :
    (resolveFire A i i r1 r1).get? i = some (fireSelf r1) := by
  unfold resolveFire fireSelf
  repeat' (first | split | (simp only []; split))
  all_goals simp_all [setAt_getElem, hA, List.get?_eq_getElem?]

theorem resolveStep_paired {A : List Stub} {i m : Nat} {s : Stub}
    (h : A.get? m = some s) (hs : optTruthy s.inverseSide = true) :
    (resolveStep A i).1.get? m = some s := by
  rcases resolveStep_cases A i with ⟨_, hst, _⟩ | ⟨r1, j, hA, hun, hf, _, hst⟩
  · rw [hst]; exact h
  · rw [hst]
    have hmi : m ≠ i := by
      intro he
      subst he
      rw [h] at hA
      cases hA
      rw [hs] at hun
      cases hun
    have hmj : m ≠ j := by
      intro hcy
      subst hcy
      obtain ⟨x, hx, hpx, _⟩ := findFirst_some hf
      rw [h] at hx
      cases hx
      unfold matchPred at hpx
      rw [hs] at hpx
      simp at hpx
    rw [resolveFire_get_other hmi hmj]
    exact h

theorem resolvePrefix_zero (stubs : List Stub) : resolvePrefix stubs 0 = stubs := rfl

theorem resolvePrefix_succ (stubs : List Stub) (k : Nat) :
    resolvePrefix stubs (k + 1) = (resolveStep (resolvePrefix stubs k) k).1 := by
  unfold resolvePrefix
  rw [List.range_succ, List.foldl_append]
  rfl

theorem resolvePrefix_length (stubs : List Stub) (k : Nat) :
    (resolvePrefix stubs k).length = stubs.length := by
  induction k with
  | zero => rfl
  | succ n ih => rw [resolvePrefix_succ, resolveStep_length, ih]

theorem resolvePrefix_map {α : Type} (g : Stub → α)
    (h1 : ∀ s v, g { s with inverseSide := v } = g s)
    (h2 : ∀ s v, g { s with relType := v } = g s)
    (h3 : ∀ s v, g { s with isOwner := v } = g s)
    (stubs : List Stub) (k m : Nat) :
    ((resolvePrefix stubs k).get? m).map g = (stubs.get? m).map g := by
  induction k with
  | zero => rfl
  | succ n ih => rw [resolvePrefix_succ, resolveStep_map g h1 h2 h3, ih]

/-- The frozen projection: every stub field the resolver loop never
writes. -/
theorem resolvePrefix_frozen (stubs : List Stub) (k m : Nat) :
    ((resolvePrefix stubs k).get? m).map
        (fun s => (s.localName, s.fromEntity, s.toEntity, s.origKind, s.joinColumnName)) =
      ((stubs.get? m).map
        (fun s => (s.localName, s.fromEntity, s.toEntity, s.origKind, s.joinColumnName))) := by
  exact resolvePrefix_map
    (fun s => (s.localName, s.fromEntity, s.toEntity, s.origKind, s.joinColumnName))
    (fun s v => rfl) (fun s v => rfl) (fun s v => rfl) stubs k m

theorem prefix_paired_mono {stubs : List Stub} {k m : Nat} {s : Stub}
    (h : (resolvePrefix stubs k).get? m = some s) (hs : optTruthy s.inverseSide = true)
    {n : Nat} (hkk : k ≤ n) : (resolvePrefix stubs n).get? m = some s := by
  induction n with
  | zero =>
    have : k = 0 := Nat.le_zero.mp hkk
    subst this
    exact h
  | succ p ih =>
    rcases Nat.lt_or_ge k (p + 1) with hlt | hge
    · have hp : (resolvePrefix stubs p).get? m = some s := ih (Nat.lt_succ_iff.mp hlt)
      rw [resolvePrefix_succ]
      exact resolveStep_paired hp hs
    · have : k = p + 1 := Nat.le_antisymm hkk hge
      subst this
      exact h

theorem resolveAux_decomp (stubs : List Stub) :
    resolveAux stubs =
      (resolvePrefix stubs stubs.length,
       ((List.range stubs.length).map (stepEvents stubs)).flatten) := by
  suffices h : ∀ k,
      (List.range k).foldl
        (fun acc i =>
          let r := resolveStep acc.1 i
          (r.1, acc.2 ++ r.2.toList)) (stubs, []) =
      (resolvePrefix stubs k, ((List.range k).map (stepEvents stubs)).flatten) by
    exact h stubs.length
  intro k
  induction k with
  | zero => rfl
  | succ n ih =>
    rw [List.range_succ, List.foldl_append, ih, List.map_append, List.flatten_append]
    simp [resolvePrefix_succ, stepEvents]

theorem resolveStubs_as_steps (stubs : List Stub) :
    resolveStubs stubs = resolvePrefix stubs stubs.length := by
  unfold resolveStubs
  rw [resolveAux_decomp]

theorem events_mem {stubs : List Stub} {p : Nat × Nat} :
    p ∈ resolveEvents stubs ↔
      p.1 < stubs.length ∧ (resolveStep (resolvePrefix stubs p.1) p.1).2 = some p := by
  unfold resolveEvents
  rw [resolveAux_decomp]
  simp only [List.mem_flatten, List.mem_map]
  constructor
  · rintro ⟨l, ⟨k, hk, rfl⟩, hpl⟩
    unfold stepEvents at hpl
    rcases hev : (resolveStep (resolvePrefix stubs k) k).2 with _ | q
    · rw [hev] at hpl; cases hpl
    · rw [hev] at hpl
      simp [Option.toList] at hpl
      subst hpl
      have hk1 : p.1 = k := by
        rcases resolveStep_cases (resolvePrefix stubs k) k with ⟨h2, _, _⟩ | ⟨r1, j, _, _, _, h2, _⟩
        · rw [h2] at hev; cases hev
        · rw [h2] at hev
          cases hev
          rfl
      subst hk1
      exact ⟨List.mem_range.mp hk, hev⟩
  · rintro ⟨hlt, hev⟩
    refine ⟨stepEvents stubs p.1, ⟨p.1, List.mem_range.mpr hlt, rfl⟩, ?_⟩
    unfold stepEvents
    rw [hev]
    simp [Option.toList]

theorem findFirst_eq_of {p : Stub → Bool} {l : List Stub} {k : Nat} {x : Stub}
    (hk : l.get? k = some x) (hx : p x = true)
    (hmin : ∀ m y, m < k → l.get? m = some y → p y = false) :
    findFirst p l = some k := by
  induction l generalizing k with
  | nil => cases hk
  | cons a as ih =>
    cases k with
    | zero =>
      cases hk
      simp [findFirst, hx]
    | succ n =>
      have ha : p a = false := hmin 0 a (Nat.succ_pos n) rfl
      simp [findFirst, ha]
      exact ih hk (fun m y hm hy => hmin (m + 1) y (Nat.succ_lt_succ hm) hy)

theorem fireI_inverseSide (r1 r2 : Stub) :
    (fireI r1 r2).inverseSide = some r2.localName := by
  unfold fireI
  repeat' (first | split | (simp only []; split))
  all_goals rfl

theorem fireJ_inverseSide (r1 r2 : Stub) :
    (fireJ r1 r2).inverseSide = some r1.localName := by
  unfold fireJ
  repeat' (first | split | (simp only []; split))
  all_goals rfl

theorem fireSelf_inverseSide (r1 : Stub) :
    (fireSelf r1).inverseSide = some r1.localName := by
  unfold fireSelf
  repeat' (first | split | (simp only []; split))
  all_goals rfl

/-- Every slot of a prefix state holds a stub whose local name is an
original stub's local name. -/
theorem prefix_localName {stubs : List Stub} (k q : Nat) {y : Stub}
    (hy : (resolvePrefix stubs k).get? q = some y) :
    ∃ y0, stubs.get? q = some y0 ∧ y.localName = y0.localName := by
  have hfr := resolvePrefix_frozen stubs k q
  rw [hy] at hfr
  rcases hq : stubs.get? q with _ | y0
  · rw [hq] at hfr; cases hfr
  · rw [hq] at hfr
    refine ⟨y0, rfl, ?_⟩
    have := congrArg (fun t => t.map Prod.fst) hfr
    simpa using this

/-- A slot that is still unpaired after `k` iterations has never been
written: it still holds its original stub.  Uses that every written
`inverseSide` is some original stub's nonempty local name. -/
theorem unpaired_untouched {stubs : List Stub}
    (Hname : ∀ s ∈ stubs, s.localName ≠ "") :
    ∀ k m s, (resolvePrefix stubs k).get? m = some s →
      optTruthy s.inverseSide = false → stubs.get? m = some s := by
  intro k
  induction k with
  | zero => intro m s h _; exact h
  | succ n ih =>
    intro m s h hun
    rw [resolvePrefix_succ] at h
    rcases resolveStep_cases (resolvePrefix stubs n) n with ⟨_, hst, _⟩ | ⟨r1, j, hA, hr1un, hf, _, hst⟩
    · rw [hst] at h
      exact ih m s h hun
    · rw [hst] at h
      obtain ⟨x, hx, hpx, _⟩ := findFirst_some hf
      have hxg : stubGet (resolvePrefix stubs n) j = x := by
        unfold stubGet
        rw [hx]
        rfl
      have hname_of : ∀ q y, (resolvePrefix stubs n).get? q = some y → y.localName ≠ "" := by
        intro q y hy
        obtain ⟨y0, hy0, hly⟩ := prefix_localName n q hy
        rw [hly]
        exact Hname y0 (List.get?_mem hy0)
      have truthy_of : ∀ t : String, t ≠ "" → optTruthy (some t) = true := by
        intro t ht
        simp [optTruthy, ht]
      by_cases hmn : m = n
      · subst hmn
        by_cases hmj : j = m
        · subst hmj
          have hxr1 : x = r1 := by
            rw [hx] at hA
            exact Option.some.inj hA
          subst hxr1
          rw [hxg, resolveFire_get_self hx] at h
          cases h
          rw [fireSelf_inverseSide] at hun
          rw [truthy_of _ (hname_of _ _ hx)] at hun
          cases hun
        · rw [resolveFire_get_i (fun hc => hmj hc.symm) hA] at h
          cases h
          rw [fireI_inverseSide, hxg] at hun
          rw [truthy_of _ (hname_of _ _ hx)] at hun
          cases hun
      · by_cases hmj : m = j
        · subst hmj
          rw [hxg, resolveFire_get_j (fun hc => hmn hc.symm) hx] at h
          cases h
          rw [fireJ_inverseSide] at hun
          rw [truthy_of _ (hname_of _ _ hA)] at hun
          cases hun
        · rw [resolveFire_get_other hmn hmj] at h
          exact ih m s h hun

theorem revMatchB_congr {x y : Stub} (r : Stub)
    (h1 : x.fromEntity = y.fromEntity) (h2 : x.toEntity = y.toEntity) :
    revMatchB r x = revMatchB r y := by
  unfold revMatchB
  rw [h1, h2]

theorem revMatchB_congr_left {x y : Stub} (r : Stub)
    (h1 : x.fromEntity = y.fromEntity) (h2 : x.toEntity = y.toEntity) :
    revMatchB x r = revMatchB y r := by
  unfold revMatchB
  rw [h1, h2]

theorem revMatchB_symm (r x : Stub) : revMatchB r x = revMatchB x r := by
  unfold revMatchB
  exact Bool.and_comm _ _

/-- The frozen fields of any prefix-state slot coincide with the original
stub's. -/
theorem prefix_frozen_fields {stubs : List Stub} {k q : Nat} {y : Stub}
    (hy : (resolvePrefix stubs k).get? q = some y) :
    ∃ y0, stubs.get? q = some y0 ∧ y.localName = y0.localName ∧
      y.fromEntity = y0.fromEntity ∧ y.toEntity = y0.toEntity ∧
      y.origKind = y0.origKind ∧ y.joinColumnName = y0.joinColumnName := by
  have hfr := resolvePrefix_frozen stubs k q
  rw [hy] at hfr
  rcases hq : stubs.get? q with _ | y0
  · rw [hq] at hfr; cases hfr
  · rw [hq] at hfr
    simp only [Option.map_some'] at hfr
    have h := Option.some.inj hfr
    refine ⟨y0, rfl, ?_, ?_, ?_, ?_, ?_⟩
    · exact congrArg Prod.fst h
    · exact congrArg (fun t => t.2.1) h
    · exact congrArg (fun t => t.2.2.1) h
    · exact congrArg (fun t => t.2.2.2.1) h
    · exact congrArg (fun t => t.2.2.2.2) h

theorem fireI_localName (r1 r2 : Stub) : (fireI r1 r2).localName = r1.localName := by
  unfold fireI
  repeat' (first | split | (simp only []; split))
  all_goals rfl

theorem fireJ_localName (r1 r2 : Stub) : (fireJ r1 r2).localName = r2.localName := by
  unfold fireJ
  repeat' (first | split | (simp only []; split))
  all_goals rfl

theorem fireSelf_localName (r1 : Stub) : (fireSelf r1).localName = r1.localName := by
  unfold fireSelf
  repeat' (first | split | (simp only []; split))
  all_goals rfl

/-- C6 counterexample: a single self-referential stub has no *other*
reverse stub, so the claim predicts it stays unpaired with `inverseSide`
null; the resolver instead pairs it with itself, setting `inverseSide` to
its own local name (and refining it to an owning many-to-many). -/
theorem resolver_pairing_c6_cex :
    resolveStubs [exSelfStub] = [exSelfStubResolved] ∧
    exSelfStub.inverseSide = none ∧ exSelfStubResolved.inverseSide ≠ none := by
  refine ⟨by decide, rfl, by decide⟩

/-- C6 (amended): each resolver iteration `i` pairs a still-unpaired stub
with the first unpaired stub (possibly itself) whose (fromEntity, toEntity)
is the exact reverse of its own, recorded by the ghost event `(i, j)`;
after resolution the two sides of every event are mutual inverses
(`r1.inverseSide = r2.localName` and vice versa); and a stub for which no
stub at all (itself included) holds the reversed entity pair keeps its
original value — in particular a null `inverseSide` and its originally
inferred `relType`. -/
theorem resolver_pairing_c6 (stubs : List Stub)
    (Hname : ∀ s ∈ stubs, s.localName ≠ "") :
    (∀ p : Nat × Nat, p ∈ resolveEvents stubs ↔
      (p.1 < stubs.length ∧ ∃ r1, (resolvePrefix stubs p.1).get? p.1 = some r1 ∧
        optTruthy r1.inverseSide = false ∧
        findFirst (matchPred r1) (resolvePrefix stubs p.1) = some p.2)) ∧
    (∀ i j, (i, j) ∈ resolveEvents stubs →
      ∃ si sj, (resolveStubs stubs).get? i = some si ∧
        (resolveStubs stubs).get? j = some sj ∧
        si.inverseSide = some sj.localName ∧ sj.inverseSide = some si.localName) ∧
    (∀ m s0, stubs.get? m = some s0 →
      (∀ k y, stubs.get? k = some y → revMatchB s0 y = false) →
      (resolveStubs stubs).get? m = some s0) := by
  refine ⟨?_, ?_, ?_⟩
  · intro p
    rw [events_mem]
    constructor
    · rintro ⟨hlt, hev⟩
      refine ⟨hlt, ?_⟩
      rcases resolveStep_cases (resolvePrefix stubs p.1) p.1 with ⟨h2, _, _⟩ | ⟨r1, j, hA, hun, hf, h2, _⟩
      · rw [h2] at hev; cases hev
      · rw [h2] at hev
        have hp : (p.1, j) = p := Option.some.inj hev
        have hp2 : j = p.2 := congrArg Prod.snd hp
        exact ⟨r1, hA, hun, hp2 ▸ hf⟩
    · rintro ⟨hlt, r1, hA, hun, hf⟩
      refine ⟨hlt, ?_⟩
      rcases resolveStep_cases (resolvePrefix stubs p.1) p.1 with ⟨_, _, h3⟩ | ⟨r1', j', hA', hun', hf', h2, _⟩
      · rw [h3 r1 hA hun] at hf; cases hf
      · have hr : r1' = r1 := by
          rw [hA] at hA'
          exact (Option.some.inj hA').symm
        subst hr
        rw [hf] at hf'
        have hj : j' = p.2 := (Option.some.inj hf').symm
        subst hj
        rw [h2]
  · intro i j hmem
    rw [events_mem] at hmem
    obtain ⟨hlt, hev⟩ := hmem
    rcases resolveStep_cases (resolvePrefix stubs i) i with ⟨h2, _, _⟩ | ⟨r1, j', hA, hun, hf, h2, hst⟩
    · rw [h2] at hev; cases hev
    · rw [h2] at hev
      have hj : j = j' := (congrArg Prod.snd (Option.some.inj hev)).symm
      subst hj
      obtain ⟨x, hx, hpx, _⟩ := findFirst_some hf
      have hxg : stubGet (resolvePrefix stubs i) j = x := by
        unfold stubGet
        rw [hx]
        rfl
      have hpre : resolvePrefix stubs (i + 1) =
          resolveFire (resolvePrefix stubs i) i j r1 x := by
        rw [resolvePrefix_succ, hst, hxg]
      obtain ⟨y1, hy10, hl1, _⟩ := prefix_frozen_fields hA
      obtain ⟨yx, hyx0, hlx, _⟩ := prefix_frozen_fields hx
      have hn1 : r1.localName ≠ "" := by
        rw [hl1]
        exact Hname y1 (List.get?_mem hy10)
      have hnx : x.localName ≠ "" := by
        rw [hlx]
        exact Hname yx (List.get?_mem hyx0)
      have truthy_of : ∀ t : String, t ≠ "" → optTruthy (some t) = true := by
        intro t ht
        simp [optTruthy, ht]
      have hkk : i + 1 ≤ stubs.length := Nat.succ_le_of_lt hlt
      rw [resolveStubs_as_steps]
      by_cases hij : i = j
      · subst hij
        have hxr : x = r1 := by
          rw [hx] at hA
          exact Option.some.inj hA
        subst hxr
        have hget : (resolvePrefix stubs (i + 1)).get? i = some (fireSelf x) := by
          rw [hpre]
          exact resolveFire_get_self hx
        have hfin := prefix_paired_mono hget
          (by rw [fireSelf_inverseSide]; exact truthy_of _ hnx) hkk
        exact ⟨fireSelf x, fireSelf x, hfin, hfin, by
          rw [fireSelf_inverseSide, fireSelf_localName], by
          rw [fireSelf_inverseSide, fireSelf_localName]⟩
      · have hgi : (resolvePrefix stubs (i + 1)).get? i = some (fireI r1 x) := by
          rw [hpre]
          exact resolveFire_get_i hij hA
        have hgj : (resolvePrefix stubs (i + 1)).get? j = some (fireJ r1 x) := by
          rw [hpre]
          exact resolveFire_get_j hij hx
        have hfi := prefix_paired_mono hgi
          (by rw [fireI_inverseSide]; exact truthy_of _ hnx) hkk
        have hfj := prefix_paired_mono hgj
          (by rw [fireJ_inverseSide]; exact truthy_of _ hn1) hkk
        exact ⟨fireI r1 x, fireJ r1 x, hfi, hfj, by
          rw [fireI_inverseSide, fireJ_localName], by
          rw [fireJ_inverseSide, fireI_localName]⟩
  · intro m s0 hm hno
    rw [resolveStubs_as_steps]
    suffices h : ∀ k, (resolvePrefix stubs k).get? m = some s0 by exact h stubs.length
    intro k
    induction k with
    | zero => exact hm
    | succ n ih =>
      rw [resolvePrefix_succ]
      rcases resolveStep_cases (resolvePrefix stubs n) n with ⟨_, hst, _⟩ | ⟨r1, j, hA, hun, hf, _, hst⟩
      · rw [hst]; exact ih
      · rw [hst]
        obtain ⟨x, hx, hpx, _⟩ := findFirst_some hf
        have hxg : stubGet (resolvePrefix stubs n) j = x := by
          unfold stubGet
          rw [hx]
          rfl
        rw [hxg]
        by_cases hmn : m = n
        · exfalso
          subst hmn
          have hr1 : r1 = s0 := by
            rw [ih] at hA
            exact (Option.some.inj hA).symm
          subst hr1
          obtain ⟨yx, hyx0, _, hfx, htx, _, _⟩ := prefix_frozen_fields hx
          have hrx : revMatchB r1 x = true := by
            unfold matchPred at hpx
            exact (Bool.and_eq_true_iff.mp hpx).1
          rw [revMatchB_congr r1 hfx htx] at hrx
          rw [hno j yx hyx0] at hrx
          cases hrx
        · by_cases hmj : m = j
          · exfalso
            subst hmj
            have hxs : x = s0 := by
              rw [ih] at hx
              exact (Option.some.inj hx).symm
            subst hxs
            obtain ⟨y1, hy10, _, hf1, ht1, _, _⟩ := prefix_frozen_fields hA
            have hrx : revMatchB r1 x = true := by
              unfold matchPred at hpx
              exact (Bool.and_eq_true_iff.mp hpx).1
            rw [revMatchB_symm] at hrx
            rw [revMatchB_congr x hf1 ht1] at hrx
            rw [hno n y1 hy10] at hrx
            cases hrx
          · rw [resolveFire_get_other hmn hmj]
            exact ih

/-- C6 witness: the amended pairing theorem applied to a concrete
`many`/`one` stub pair, whose event (0, 1) yields mutual inverses. -/
theorem resolver_pairing_c6_witness :
    ∃ si sj, (resolveStubs exPairStubs).get? 0 = some si ∧
      (resolveStubs exPairStubs).get? 1 = some sj ∧
      si.inverseSide = some sj.localName ∧ sj.inverseSide = some si.localName :=
  (resolver_pairing_c6 exPairStubs (by decide)).2.1 0 1 (by decide)

/-- C10: a self-referential stub (fromEntity = toEntity, both resolved to
the same entity) that is not preceded in the stub list by another stub
between the same entity pair is paired with itself by the resolver: its
`inverseSide` becomes its own local name, and when its declared kind is the
to-many marker its `relType` becomes many-to-many with itself flagged
owner. -/
theorem resolver_self_pairing_c10 (stubs : List Stub)
    (Hname : ∀ s ∈ stubs, s.localName ≠ "")
    (Hinit : ∀ s ∈ stubs, s.inverseSide = none)
    (k : Nat) (E : String) (sk : Stub)
    (hk : stubs.get? k = some sk) (hfrom : sk.fromEntity = some E) (hto : sk.toEntity = E)
    (hprec : ∀ l y, l < k → stubs.get? l = some y →
      ¬(y.fromEntity = some E ∧ y.toEntity = E)) :
    ∃ s', (resolveStubs stubs).get? k = some s' ∧
      s'.inverseSide = some sk.localName ∧
      (sk.origKind = some "many" → s'.relType = "many-to-many" ∧ s'.isOwner = true) := by
  have hklen : k < stubs.length := by
    rcases List.get?_eq_some.mp hk with ⟨h, _⟩
    exact h
  have hrevk : ∀ y : Stub, y.fromEntity = some E → y.toEntity = E →
      ∀ l y0, l < k → stubs.get? l = some y0 → revMatchB y y0 = false := by
    intro y hyf hyt l y0 hl hy0
    have hnand := hprec l y0 hl hy0
    unfold revMatchB
    rw [hyt, hyf]
    cases h1 : y0.fromEntity == some E
    · simp [h1]
    · cases h2 : (some E : Option String) == some y0.toEntity
      · simp [h2]
      · exfalso
        have h1e : y0.fromEntity = some E := beq_iff_eq.mp h1
        have h2e : E = y0.toEntity := Option.some.inj (beq_iff_eq.mp h2)
        exact hnand ⟨h1e, h2e.symm⟩
  have hkpre : (resolvePrefix stubs k).get? k = some sk := by
    suffices h : ∀ n, n ≤ k → (resolvePrefix stubs n).get? k = some sk by
      exact h k (Nat.le_refl k)
    intro n
    induction n with
    | zero => intro _; exact hk
    | succ m ih =>
      intro hm
      have hmk : m < k := Nat.lt_of_succ_le hm
      have ihm := ih (Nat.le_of_lt hmk)
      rw [resolvePrefix_succ]
      rcases resolveStep_cases (resolvePrefix stubs m) m with ⟨_, hst, _⟩ | ⟨r1, j, hA, hun, hf, _, hst⟩
      · rw [hst]; exact ihm
      · rw [hst]
        obtain ⟨x, hx, hpx, _⟩ := findFirst_some hf
        have hxg : stubGet (resolvePrefix stubs m) j = x := by
          unfold stubGet
          rw [hx]
          rfl
        rw [hxg]
        have hkm : k ≠ m := Nat.ne_of_gt hmk
        by_cases hkj : k = j
        · exfalso
          subst hkj
          have hxsk : x = sk := by
            rw [ihm] at hx
            exact (Option.some.inj hx).symm
          subst hxsk
          have hrx : revMatchB r1 x = true := by
            unfold matchPred at hpx
            exact (Bool.and_eq_true_iff.mp hpx).1
          unfold revMatchB at hrx
          rw [hfrom, hto] at hrx
          obtain ⟨hx1, hx2⟩ := Bool.and_eq_true_iff.mp hrx
          have hr1to : r1.toEntity = E := by
            have := beq_iff_eq.mp hx1
            exact (Option.some.inj this).symm
          have hr1from : r1.fromEntity = some E := by
            have := beq_iff_eq.mp hx2
            rw [this]
          obtain ⟨y1, hy10, _, hf1, ht1, _, _⟩ := prefix_frozen_fields hA
          refine hprec m y1 hmk hy10 ⟨?_, ?_⟩
          · rw [← hf1]; exact hr1from
          · rw [← ht1]; exact hr1to
        · rw [resolveFire_get_other hkm hkj]
          exact ihm
  have hskun : optTruthy sk.inverseSide = false := by
    rw [Hinit sk (List.get?_mem hk)]
    rfl
  have hff : findFirst (matchPred sk) (resolvePrefix stubs k) = some k := by
    refine findFirst_eq_of hkpre ?_ ?_
    · simp [matchPred, revMatchB, hfrom, hto, hskun]
    · intro m y hm hy
      obtain ⟨y0, hy0, _, hfy, hty, _, _⟩ := prefix_frozen_fields hy
      unfold matchPred
      have : revMatchB sk y = false := by
        rw [revMatchB_congr sk hfy hty]
        exact hrevk sk hfrom hto m y0 hm hy0
      rw [this]
      rfl
  rcases resolveStep_cases (resolvePrefix stubs k) k with ⟨_, _, h3⟩ | ⟨r1, j, hA, hun, hf, _, hst⟩
  · rw [h3 sk hkpre hskun] at hff
    cases hff
  · have hr1 : r1 = sk := by
      rw [hkpre] at hA
      exact (Option.some.inj hA).symm
    subst hr1
    rw [hff] at hf
    have hjk : k = j := Option.some.inj hf
    subst hjk
    have hxg : stubGet (resolvePrefix stubs k) k = r1 := by
      unfold stubGet
      rw [hkpre]
      rfl
    rw [hxg] at hst
    have hget : (resolvePrefix stubs (k + 1)).get? k = some (fireSelf r1) := by
      rw [resolvePrefix_succ, hst]
      exact resolveFire_get_self hkpre
    have hnk : r1.localName ≠ "" := Hname r1 (List.get?_mem hk)
    have hfin := prefix_paired_mono hget
      (by rw [fireSelf_inverseSide]; simp [optTruthy, hnk]) (Nat.succ_le_of_lt hklen)
    rw [resolveStubs_as_steps]
    refine ⟨fireSelf r1, hfin, fireSelf_inverseSide r1, ?_⟩
    intro hmany
    unfold fireSelf
    simp [hmany]

/-- C10 witness: the self-pairing theorem applied to a single concrete
self-referential to-many stub. -/
theorem resolver_self_pairing_c10_witness :
    ∃ s', (resolveStubs [exSelfStub]).get? 0 = some s' ∧
      s'.inverseSide = some exSelfStub.localName ∧
      (exSelfStub.origKind = some "many" → s'.relType = "many-to-many" ∧ s'.isOwner = true) :=
  resolver_self_pairing_c10 [exSelfStub] (by decide) (by decide) 0 "Categories" exSelfStub
    rfl rfl rfl (fun l y hl _ => absurd hl (Nat.not_lt_zero l))

theorem bool_not_true {b : Bool} (h : (!b) = true) : b = false := by
  cases b
  · rfl
  · cases h

theorem and_beq_false {a b u v : Option String} (h : ¬(a = u ∧ b = v)) :
    (a == u && b == v) = false := by
  by_cases h1 : a = u
  · by_cases h2 : b = v
    · exact absurd ⟨h1, h2⟩ h
    · simp [beq_eq_false_iff_ne.mpr h2]
  · simp [beq_eq_false_iff_ne.mpr h1]

/-- C5 counterexample: two mutually reverse stubs both declared with the
`oneToOne` marker resolve to a one-to-one pair with a resolved join column
on the first side, yet neither side carries the ownership marker — the
claim requires exactly one owner, or none only when no join column was
resolved on either side. -/
theorem resolver_ownership_c5_cex :
    resolveEvents exC5Stubs = [(0, 1)] ∧
    (stubGet (resolveStubs exC5Stubs) 0).relType = "one-to-one" ∧
    (stubGet (resolveStubs exC5Stubs) 1).relType = "one-to-one" ∧
    (stubGet (resolveStubs exC5Stubs) 0).inverseSide = some "y" ∧
    (stubGet (resolveStubs exC5Stubs) 0).isOwner = false ∧
    (stubGet (resolveStubs exC5Stubs) 1).isOwner = false ∧
    optTruthy (stubGet (resolveStubs exC5Stubs) 0).joinColumnName = true := by
  decide

/-- C5 (amended): for every resolver pairing event, at most one of the two
sides carries `isOwner`.  When both declared kinds are the to-many marker,
the first-processed side carries it; when both are the to-one marker, the
side with a truthy resolved join column carries it (the first side
preferred) and neither does when no join column was resolved; every other
pairing (in particular the explicit one-to-one marker, which still yields a
one-to-one pair) leaves both sides without an owner even when a join
column was resolved. -/
theorem resolver_ownership_c5 (stubs : List Stub)
    (Hname : ∀ s ∈ stubs, s.localName ≠ "")
    (Hown : ∀ s ∈ stubs, s.isOwner = false) :
    ∀ i j, (i, j) ∈ resolveEvents stubs →
      ∃ si sj s0i s0j, stubs.get? i = some s0i ∧ stubs.get? j = some s0j ∧
        (resolveStubs stubs).get? i = some si ∧ (resolveStubs stubs).get? j = some sj ∧
        (i ≠ j → ¬(si.isOwner = true ∧ sj.isOwner = true)) ∧
        (s0i.origKind = some "many" ∧ s0j.origKind = some "many" →
          si.isOwner = true ∧ (i ≠ j → sj.isOwner = false)) ∧
        (s0i.origKind = some "one" ∧ s0j.origKind = some "one" →
          (optTruthy s0i.joinColumnName = true →
            si.isOwner = true ∧ (i ≠ j → sj.isOwner = false)) ∧
          (optTruthy s0i.joinColumnName = false → optTruthy s0j.joinColumnName = true →
            sj.isOwner = true ∧ (i ≠ j → si.isOwner = false)) ∧
          (optTruthy s0i.joinColumnName = false → optTruthy s0j.joinColumnName = false →
            si.isOwner = false ∧ sj.isOwner = false)) ∧
        (¬(s0i.origKind = some "many" ∧ s0j.origKind = some "many") →
         ¬(s0i.origKind = some "one" ∧ s0j.origKind = some "one") →
          si.isOwner = false ∧ sj.isOwner = false) := by
  intro i j hmem
  rw [events_mem] at hmem
  obtain ⟨hlt, hev⟩ := hmem
  rcases resolveStep_cases (resolvePrefix stubs i) i with ⟨h2, _, _⟩ | ⟨r1, j', hA, hun, hf, h2, hst⟩
  · rw [h2] at hev; cases hev
  · rw [h2] at hev
    have hj : j = j' := (congrArg Prod.snd (Option.some.inj hev)).symm
    subst hj
    obtain ⟨x, hx, hpx, _⟩ := findFirst_some hf
    have hxg : stubGet (resolvePrefix stubs i) j = x := by
      unfold stubGet
      rw [hx]
      rfl
    have hxun : optTruthy x.inverseSide = false := by
      unfold matchPred at hpx
      exact bool_not_true (Bool.and_eq_true_iff.mp hpx).2
    have h0i : stubs.get? i = some r1 := unpaired_untouched Hname i i r1 hA hun
    have h0j : stubs.get? j = some x := unpaired_untouched Hname i j x hx hxun
    have hn1 : r1.localName ≠ "" := Hname r1 (List.get?_mem h0i)
    have hnx : x.localName ≠ "" := Hname x (List.get?_mem h0j)
    have ho1 : r1.isOwner = false := Hown r1 (List.get?_mem h0i)
    have hox : x.isOwner = false := Hown x (List.get?_mem h0j)
    have truthy_of : ∀ t : String, t ≠ "" → optTruthy (some t) = true := by
      intro t ht
      simp [optTruthy, ht]
    have hpre : resolvePrefix stubs (i + 1) = resolveFire (resolvePrefix stubs i) i j r1 x := by
      rw [resolvePrefix_succ, hst, hxg]
    have hkk : i + 1 ≤ stubs.length := Nat.succ_le_of_lt hlt
    rw [resolveStubs_as_steps]
    by_cases hij : i = j
    · subst hij
      have hxr : x = r1 := by
        rw [hx] at hA
        exact Option.some.inj hA
      subst hxr
      have hget : (resolvePrefix stubs (i + 1)).get? i = some (fireSelf x) := by
        rw [hpre]
        exact resolveFire_get_self hx
      have hfin := prefix_paired_mono hget
        (by rw [fireSelf_inverseSide]; exact truthy_of _ hnx) hkk
      have hSown : (fireSelf x).isOwner =
          ((x.origKind == some "many") ||
           (x.origKind == some "one") && optTruthy x.joinColumnName) := by
        unfold fireSelf
        repeat' (first | split | (simp only []; split))
        all_goals simp_all [ho1]
      refine ⟨fireSelf x, fireSelf x, x, x, h0i, h0i, hfin, hfin, ?_, ?_, ?_, ?_⟩
      · intro hne; exact absurd rfl hne
      · rintro ⟨hm1, _⟩
        refine ⟨?_, fun hne => absurd rfl hne⟩
        rw [hSown, hm1]
        simp
      · rintro ⟨hk1, _⟩
        refine ⟨?_, ?_, ?_⟩
        · intro htr
          refine ⟨?_, fun hne => absurd rfl hne⟩
          rw [hSown, hk1, htr]
          simp
        · intro hf1 htx
          rw [hf1] at htx
          cases htx
        · intro hf1 _
          have : (fireSelf x).isOwner = false := by
            rw [hSown, hk1, hf1]
            simp
          exact ⟨this, this⟩
      · intro hnm hno
        have hm : x.origKind ≠ some "many" := fun h => hnm ⟨h, h⟩
        have ho : x.origKind ≠ some "one" := fun h => hno ⟨h, h⟩
        have : (fireSelf x).isOwner = false := by
          rw [hSown]
          simp [beq_eq_false_iff_ne.mpr hm, beq_eq_false_iff_ne.mpr ho]
        exact ⟨this, this⟩
    · have hgi : (resolvePrefix stubs (i + 1)).get? i = some (fireI r1 x) := by
        rw [hpre]
        exact resolveFire_get_i hij hA
      have hgj : (resolvePrefix stubs (i + 1)).get? j = some (fireJ r1 x) := by
        rw [hpre]
        exact resolveFire_get_j hij hx
      have hfi := prefix_paired_mono hgi
        (by rw [fireI_inverseSide]; exact truthy_of _ hnx) hkk
      have hfj := prefix_paired_mono hgj
        (by rw [fireJ_inverseSide]; exact truthy_of _ hn1) hkk
      have hIown : (fireI r1 x).isOwner =
          ((r1.origKind == some "many" && x.origKind == some "many") ||
           (r1.origKind == some "one" && x.origKind == some "one") &&
             optTruthy r1.joinColumnName) := by
        unfold fireI
        repeat' (first | split | (simp only []; split))
        all_goals simp_all [ho1]
      have hJown : (fireJ r1 x).isOwner =
          ((r1.origKind == some "one" && x.origKind == some "one") &&
            !optTruthy r1.joinColumnName && optTruthy x.joinColumnName) := by
        unfold fireJ
        repeat' (first | split | (simp only []; split))
        all_goals simp_all [hox]
      refine ⟨fireI r1 x, fireJ r1 x, r1, x, h0i, h0j, hfi, hfj, ?_, ?_, ?_, ?_⟩
      · rintro _ ⟨ha, hb⟩
        rw [hIown] at ha
        rw [hJown] at hb
        obtain ⟨hOO, htx⟩ := Bool.and_eq_true_iff.mp hb
        obtain ⟨hO, ht1⟩ := Bool.and_eq_true_iff.mp hOO
        have ht1f : optTruthy r1.joinColumnName = false := bool_not_true ht1
        rw [ht1f] at ha
        simp only [Bool.and_false, Bool.or_false] at ha
        have e1 : r1.origKind = some "many" := beq_iff_eq.mp (Bool.and_eq_true_iff.mp ha).1
        have e2 : r1.origKind = some "one" := beq_iff_eq.mp (Bool.and_eq_true_iff.mp hO).1
        rw [e1] at e2
        simp at e2
      · rintro ⟨hm1, hm2⟩
        constructor
        · rw [hIown, hm1, hm2]
          simp
        · intro _
          rw [hJown, hm1]
          simp
      · rintro ⟨hk1, hk2⟩
        refine ⟨?_, ?_, ?_⟩
        · intro htr
          constructor
          · rw [hIown, hk1, hk2, htr]
            simp
          · intro _
            rw [hJown, htr]
            simp
        · intro hf1 htx
          constructor
          · rw [hJown, hk1, hk2, hf1, htx]
            simp
          · intro _
            rw [hIown, hk1, hk2, hf1]
            simp
        · intro hf1 hfx
          constructor
          · rw [hIown, hk1, hk2, hf1]
            simp
          · rw [hJown, hk1, hk2, hf1, hfx]
            simp
      · intro hnm hno
        have hM := and_beq_false hnm
        have hO := and_beq_false hno
        constructor
        · rw [hIown, hM, hO]
          simp
        · rw [hJown, hO]
          simp

/-- C5 witness: the amended ownership theorem applied to a concrete pair of
mutually reverse to-many stubs. -/
theorem resolver_ownership_c5_witness :
    ∃ si sj s0i s0j, exManyStubs.get? 0 = some s0i ∧ exManyStubs.get? 1 = some s0j ∧
      (resolveStubs exManyStubs).get? 0 = some si ∧
      (resolveStubs exManyStubs).get? 1 = some sj ∧
      ((0 : Nat) ≠ 1 → ¬(si.isOwner = true ∧ sj.isOwner = true)) ∧
      (s0i.origKind = some "many" ∧ s0j.origKind = some "many" →
        si.isOwner = true ∧ ((0 : Nat) ≠ 1 → sj.isOwner = false)) ∧
      (s0i.origKind = some "one" ∧ s0j.origKind = some "one" →
        (optTruthy s0i.joinColumnName = true →
          si.isOwner = true ∧ ((0 : Nat) ≠ 1 → sj.isOwner = false)) ∧
        (optTruthy s0i.joinColumnName = false → optTruthy s0j.joinColumnName = true →
          sj.isOwner = true ∧ ((0 : Nat) ≠ 1 → si.isOwner = false)) ∧
        (optTruthy s0i.joinColumnName = false → optTruthy s0j.joinColumnName = false →
          si.isOwner = false ∧ sj.isOwner = false)) ∧
      (¬(s0i.origKind = some "many" ∧ s0j.origKind = some "many") →
       ¬(s0i.origKind = some "one" ∧ s0j.origKind = some "one") →
        si.isOwner = false ∧ sj.isOwner = false) :=
  resolver_ownership_c5 exManyStubs (by decide) (by decide) 0 1 (by decide)

/-- C1: the conversion is a deterministic pure function of its ordered
input: two runs of `convertSchemas` on the same ordered list of parsed
files produce identical output maps (same keys, byte-identical values).
The embedding is a pure function of the parsed trees — the source consults
no clock, randomness or ambient state, and all its map iterations follow
insertion order — so determinism is congruence. -/
theorem convertSchemas_deterministic_c1 (a b : List SFile) (h : a = b) :
    convertSchemas a = convertSchemas b := by
  rw [h]

/-- C1 witness: two runs on a concrete two-table input coincide. -/
theorem convertSchemas_deterministic_c1_witness :
    convertSchemas exInput1 = convertSchemas exInput1 :=
  convertSchemas_deterministic_c1 exInput1 exInput1 rfl

/-- C2 counterexample: a relation-builder call with the marker `oneToOne` —
an "other/unrecognized" marker under the claim, which therefore demands
many-to-one — is collected in pass 3 with relType one-to-one. -/
theorem relType_inference_c2_cex :
    (pass2 (pass1 exOneToOneInput).1 exOneToOneInput).map
        (fun pr => pr.2.map (fun s => (s.origKind, s.relType))) =
      .ok [(some "oneToOne", "one-to-one")] ∧
    ("one-to-one" : String) ≠ "many-to-one" := by
  exact ⟨rfl, by decide⟩

/-- C2 (amended): the inferred relType before pairing is: the to-many
marker "many" → one-to-many; the to-one marker "one" → many-to-one when
its options object carries a `fields` array, else one-to-one; the explicit
marker "oneToOne" → one-to-one; and every other or unrecognized marker →
many-to-one. -/
theorem relType_inference_c2 (kind : Option String) (opts : Option Expr) :
    (kind = some "many" → inferRelType kind opts = "one-to-many") ∧
    (kind = some "one" →
      inferRelType kind opts = (if hasFieldsOpt opts then "many-to-one" else "one-to-one")) ∧
    (kind = some "oneToOne" → inferRelType kind opts = "one-to-one") ∧
    (kind ≠ some "many" → kind ≠ some "one" → kind ≠ some "oneToOne" →
      inferRelType kind opts = "many-to-one") := by
  refine ⟨?_, ?_, ?_, ?_⟩
  · intro h
    simp [inferRelType, h]
  · intro h
    simp [inferRelType, h]
  · intro h
    simp [inferRelType, h]
  · intro h1 h2 h3
    simp [inferRelType, h1, h2, h3]

/-- C2 witness: the four classification branches at concrete markers. -/
theorem relType_inference_c2_witness :
    inferRelType (some "many") none = "one-to-many" ∧
    inferRelType (some "one") none = "one-to-one" ∧
    inferRelType (some "oneToOne") none = "one-to-one" ∧
    inferRelType (some "belongsTo") none = "many-to-one" :=
  ⟨(relType_inference_c2 (some "many") none).1 rfl,
   (relType_inference_c2 (some "one") none).2.1 rfl,
   (relType_inference_c2 (some "oneToOne") none).2.2.1 rfl,
   (relType_inference_c2 (some "belongsTo") none).2.2.2 (by decide) (by decide) (by decide)⟩

/-- C3 (evaluation at the failing input): for the chained declaration
`uniqueIndex("idx").on(t.a).on(t.b)` the stored descriptor records
`unique := true` and the name, but its `columns` list is `["b", "a"]` —
the reverse of the source declaration order required by the claim and by
the spec's scenario 4 — because the source loop collects the `.on` frames
outermost-first without reversing. -/
theorem index_columns_reversed_c3 :
    (buildEntities exIdxInput).map (fun ed => ed.map (fun e => e.indices)) =
      .ok [[⟨some "idx", ["b", "a"], true⟩]] ∧
    (["b", "a"] : List String) ≠ ["a", "b"] := by
  exact ⟨rfl, by decide⟩

/-- C9: the stored value of a `.default(arg)` modifier frame: a numeric
literal is stored as the JS number `+text`; a string literal is stored
re-quoted; boolean literals keep their boolean value; an (sql-)tagged
template whose template text contains "current_timestamp"
case-insensitively is stored as the literal `'CURRENT_TIMESTAMP'`, not the
raw template text; and a bare `default()` stores the boolean marker
`true`. -/
theorem default_modifier_c9 (col : Col) (nm : String) (rest : List Expr) :
    (∀ t, (applyModifier col (some "default") (.numLit t :: rest) nm).default =
      some (.num t)) ∧
    (∀ s, (applyModifier col (some "default") (.strLit s :: rest) nm).default =
      some (.str ("'" ++ s ++ "'"))) ∧
    ((applyModifier col (some "default") (.trueKw :: rest) nm).default =
      some (.boolV true)) ∧
    ((applyModifier col (some "default") (.falseKw :: rest) nm).default =
      some (.boolV false)) ∧
    (∀ tx, containsCI tx = true →
      (applyModifier col (some "default")
          (.tagged (.ident "sql") (some tx) :: rest) nm).default =
        some (.str "'CURRENT_TIMESTAMP'")) ∧
    ((applyModifier col (some "default") [] nm).default = some (.boolV true)) := by
  refine ⟨?_, ?_, ?_, ?_, ?_, ?_⟩
  · intro t
    rfl
  · intro s
    rfl
  · rfl
  · rfl
  · intro tx h
    simp [applyModifier, defaultValOf, overrideDefaultIfSqlTagged, unwrapSqlTag, h]
  · rfl

/-- C9 witness: a mixed-case tagged-template default is stored as
`'CURRENT_TIMESTAMP'`. -/
theorem default_modifier_c9_witness :
    (applyModifier {} (some "default")
        [Expr.tagged (.ident "sql") (some "DEFAULT CURRENT_TIMESTAMP")] "ts").default =
      some (.str "'CURRENT_TIMESTAMP'") :=
  (default_modifier_c9 {} "ts" []).2.2.2.2.1 "DEFAULT CURRENT_TIMESTAMP" (by decide)

/-- C8 counterexample: `getColumn` is not total — on `db.varchar("x")`,
whose call chain bottoms out in a plain property access, the
`root.arguments` destructuring raises a TypeError; on
`text("x").references()`, rooted in a direct call, the bare `references`
frame raises a TypeError reading `.kind` of its missing argument; and on
`money("m", { enum: ["a"] })` the unmapped root name does not yield type
"text" because the enum option retypes the column. -/
theorem getColumn_total_c8_cex :
    getColumn exBroken "x" = .error "TypeError: root.arguments is not iterable" ∧
    (rootedCol exRefsBroken = true ∧
      getColumn exRefsBroken "x" =
        .error "TypeError: Cannot read properties of undefined (reading kind)") ∧
    (getColumn exMoneyEnum "m").map (fun c => c.type) = .ok "enum" ∧
    ("enum" : String) ≠ "text" := by
  exact ⟨rfl, ⟨rfl, rfl⟩, rfl, by decide⟩

theorem foldl_pn {β : Type} (f : Col → β → Col)
    (hf : ∀ c b, (f c b).primary = c.primary ∧ (f c b).nullable = c.nullable) :
    ∀ (l : List β) (col : Col),
      (l.foldl f col).primary = col.primary ∧ (l.foldl f col).nullable = col.nullable := by
  intro l
  induction l with
  | nil => intro col; exact ⟨rfl, rfl⟩
  | cons b t ih =>
    intro col
    simp only [List.foldl_cons]
    obtain ⟨h1, h2⟩ := ih (f col b)
    obtain ⟨g1, g2⟩ := hf col b
    exact ⟨h1.trans g1, h2.trans g2⟩

theorem applyOptProp_pn (col : Col) (k : String) (v : Expr) :
    (applyOptProp col k v).primary = col.primary ∧
    (applyOptProp col k v).nullable = col.nullable := by
  unfold applyOptProp
  repeat' split
  all_goals exact ⟨rfl, rfl⟩

theorem applyRefProp_pn (col : Col) (k : String) (v : Expr) :
    (applyRefProp col k v).primary = col.primary ∧
    (applyRefProp col k v).nullable = col.nullable := by
  unfold applyRefProp
  repeat' split
  all_goals exact ⟨rfl, rfl⟩

theorem applyReferences_pn {col : Col} {a0 a1 : Option Expr} {c2 : Col}
    (h : applyReferences col a0 a1 = Except.ok c2) :
    c2.primary = col.primary ∧ c2.nullable = col.nullable := by
  unfold applyReferences at h
  split at h
  · cases h
  · simp only [] at h
    cases h
    repeat' split
    all_goals
      first
      | exact ⟨rfl, rfl⟩
      | exact ⟨(foldl_pn (fun c (kv : String × Expr) => applyRefProp c kv.1 kv.2)
            (fun c kv => applyRefProp_pn c kv.1 kv.2) _ _).1,
          (foldl_pn (fun c (kv : String × Expr) => applyRefProp c kv.1 kv.2)
            (fun c kv => applyRefProp_pn c kv.1 kv.2) _ _).2⟩

theorem applyModifier_inv (col : Col) (m : Option String) (args : List Expr) (nm : String)
    (h : col.primary = some true → col.nullable = false) :
    (applyModifier col m args nm).primary = some true →
      (applyModifier col m args nm).nullable = false := by
  unfold applyModifier
  repeat' (first | split | (simp only []; split))
  all_goals
    first
    | (intro _; rfl)
    | exact h

theorem applyModifier_keep_false (col : Col) (m : Option String) (args : List Expr)
    (nm : String) (h : col.nullable = false) :
    (applyModifier col m args nm).nullable = false := by
  unfold applyModifier
  repeat' (first | split | (simp only []; split))
  all_goals
    first
    | rfl
    | exact h

theorem except_bind_ok {α β : Type} {x : Except String α} {f : α → Except String β} {b : β}
    (h : (x >>= f) = .ok b) : ∃ a, x = .ok a ∧ f a = .ok b := by
  cases x with
  | error e =>
    have he : (Except.error e >>= f : Except String β) = Except.error e := rfl
    rw [he] at h
    exact Except.noConfusion h
  | ok a => exact ⟨a, rfl, h⟩

theorem except_map_ok {α β : Type} {x : Except String α} {g : α → β} {b : β}
    (h : x.map g = .ok b) : ∃ a, x = .ok a ∧ g a = b := by
  cases x with
  | error e =>
    have he : (Except.error e).map g = (Except.error e : Except String β) := rfl
    rw [he] at h
    exact Except.noConfusion h
  | ok a =>
    refine ⟨a, rfl, ?_⟩
    have he : (Except.ok a).map g = (Except.ok (g a) : Except String β) := rfl
    rw [he] at h
    exact (Except.ok.inj h)

theorem chainApply_keep_false : ∀ (nm : String) (col : Col) (e : Expr),
    col.nullable = false → ∀ c2, chainApply nm col e = Except.ok c2 →
    c2.nullable = false := by
  intro nm col e
  induction col, e using chainApply.induct nm
  case case1 col obj args ih =>
    intro h c2 hc
    simp only [chainApply] at hc
    rw [if_pos trivial] at hc
    obtain ⟨c, href, hrest⟩ := except_bind_ok hc
    exact ih c ((applyReferences_pn href).2.trans h) c2 hrest
  case case2 col obj m args hm ih =>
    intro h c2 hc
    simp only [chainApply] at hc
    rw [if_neg hm] at hc
    exact ih (applyModifier_keep_false _ _ _ _ h) c2 hc
  case case3 col e2 args ih =>
    intro h c2 hc
    simp only [chainApply] at hc
    exact ih h c2 hc
  case case4 col c0 a args ih =>
    intro h c2 hc
    simp only [chainApply] at hc
    exact ih h c2 hc
  case case5 col callee args h1 h2 h3 =>
    intro h c2 hc
    cases callee <;>
      first
      | exact absurd rfl (h1 _ _)
      | exact absurd rfl (h2 _)
      | exact absurd rfl (h3 _ _)
      | (cases hc; exact h)
  case case6 t col h1 h2 h3 h4 =>
    intro h c2 hc
    cases t <;>
      first
      | exact absurd rfl (h4 _ _)
      | (cases hc; exact h)

theorem chainApply_inv : ∀ (nm : String) (col : Col) (e : Expr),
    (col.primary = some true → col.nullable = false) →
    ∀ c2, chainApply nm col e = Except.ok c2 →
    c2.primary = some true → c2.nullable = false := by
  intro nm col e
  induction col, e using chainApply.induct nm
  case case1 col obj args ih =>
    intro h c2 hc
    simp only [chainApply] at hc
    rw [if_pos trivial] at hc
    obtain ⟨c, href, hrest⟩ := except_bind_ok hc
    refine ih c ?_ c2 hrest
    intro hp
    rw [(applyReferences_pn href).2]
    exact h ((applyReferences_pn href).1 ▸ hp)
  case case2 col obj m args hm ih =>
    intro h c2 hc
    simp only [chainApply] at hc
    rw [if_neg hm] at hc
    exact ih (applyModifier_inv _ _ _ _ h) c2 hc
  case case3 col e2 args ih =>
    intro h c2 hc
    simp only [chainApply] at hc
    exact ih h c2 hc
  case case4 col c0 a args ih =>
    intro h c2 hc
    simp only [chainApply] at hc
    exact ih h c2 hc
  case case5 col callee args h1 h2 h3 =>
    intro h c2 hc
    cases callee <;>
      first
      | exact absurd rfl (h1 _ _)
      | exact absurd rfl (h2 _)
      | exact absurd rfl (h3 _ _)
      | (cases hc; exact h)
  case case6 t col h1 h2 h3 h4 =>
    intro h c2 hc
    cases t <;>
      first
      | exact absurd rfl (h4 _ _)
      | (cases hc; exact h)

theorem chainMethods_nonCall {e : Expr} (h : e.isCall = false) : chainMethods e = [] := by
  cases e <;> first | rfl | (cases h)

theorem chainApply_notNull : ∀ (nm : String) (col : Col) (e : Expr),
    "notNull" ∈ chainMethods e → ∀ c2, chainApply nm col e = Except.ok c2 →
    c2.nullable = false := by
  intro nm col e
  induction col, e using chainApply.induct nm
  case case1 col obj args ih =>
    intro hmem c2 hc
    simp only [chainMethods] at hmem
    simp only [chainApply] at hc
    rw [if_pos trivial] at hc
    obtain ⟨c, href, hrest⟩ := except_bind_ok hc
    rcases List.mem_cons.mp hmem with h1 | h2
    · exact absurd h1 (by decide)
    · exact ih c h2 c2 hrest
  case case2 col obj m args hm ih =>
    intro hmem c2 hc
    simp only [chainMethods] at hmem
    simp only [chainApply] at hc
    rw [if_neg hm] at hc
    rcases List.mem_cons.mp hmem with h1 | h2
    · subst h1
      exact chainApply_keep_false _ _ _ rfl c2 hc
    · exact ih h2 c2 hc
  case case3 col e2 args ih =>
    intro hmem c2 hc
    simp only [chainMethods] at hmem
    simp only [chainApply] at hc
    exact ih hmem c2 hc
  case case4 col c0 a args ih =>
    intro hmem c2 hc
    simp only [chainMethods] at hmem
    simp only [chainApply] at hc
    exact ih hmem c2 hc
  case case5 col callee args h1 h2 h3 =>
    intro hmem c2 hc
    exfalso
    cases callee <;>
      first
      | exact h1 _ _ rfl
      | exact h2 _ rfl
      | exact h3 _ _ rfl
      | simp [chainMethods] at hmem
  case case6 t col h1 h2 h3 h4 =>
    intro hmem c2 hc
    exfalso
    cases t <;>
      first
      | exact h4 _ _ rfl
      | simp [chainMethods] at hmem

theorem postProcess_inv (nm : String) (col : Col)
    (h : col.primary = some true → col.nullable = false) :
    (postProcessCol nm col).primary = some true → (postProcessCol nm col).nullable = false := by
  unfold postProcessCol
  repeat' (first | split | (simp only []; split))
  all_goals first | (intro _; rfl) | exact h

theorem postProcess_keep_false (nm : String) (col : Col) (h : col.nullable = false) :
    (postProcessCol nm col).nullable = false := by
  unfold postProcessCol
  repeat' (first | split | (simp only []; split))
  all_goals first | rfl | exact h

theorem getColumn_inv {init : Expr} {nm : String} {c : Col}
    (hok : getColumn init nm = .ok c) :
    c.primary = some true → c.nullable = false := by
  unfold getColumn at hok
  split at hok
  · cases hok
    intro hp
    exact Option.noConfusion hp
  · split at hok
    · obtain ⟨c4, hchain, hpost⟩ := except_map_ok hok
      subst hpost
      apply postProcess_inv
      refine chainApply_inv _ _ _ ?_ c4 hchain
      repeat' split
      all_goals intro hp
      all_goals exfalso
      all_goals
        first
        | exact Option.noConfusion hp
        | (rw [(foldl_pn (fun c (kv : String × Expr) => applyOptProp c kv.1 kv.2)
              (fun c kv => applyOptProp_pn c kv.1 kv.2) _ _).1] at hp
           exact Option.noConfusion hp)
    · cases hok

theorem getColumn_notNull {init : Expr} {nm : String} {c : Col}
    (hok : getColumn init nm = .ok c) (hmem : "notNull" ∈ chainMethods init) :
    c.nullable = false := by
  unfold getColumn at hok
  split at hok
  next hnc =>
    exfalso
    rw [chainMethods_nonCall (by simpa using hnc)] at hmem
    cases hmem
  next =>
    split at hok
    · obtain ⟨c4, hchain, hpost⟩ := except_map_ok hok
      subst hpost
      exact postProcess_keep_false _ _ (chainApply_notNull _ _ _ hmem c4 hchain)
    · cases hok

theorem assocSet_forall {α : Type} (Q : α → Prop) :
    ∀ (l : List (String × α)) (k : String) (v : α),
      (∀ kv ∈ l, Q kv.2) → Q v → ∀ kv ∈ assocSet l k v, Q kv.2 := by
  intro l
  induction l with
  | nil =>
    intro k v _ hv kv hkv
    simp [assocSet] at hkv
    subst hkv
    exact hv
  | cons a t ih =>
    intro k v hl hv kv hkv
    unfold assocSet at hkv
    split at hkv
    · rcases List.mem_cons.mp hkv with hh | ht
      · rw [hh]
        exact hv
      · exact hl kv (List.mem_cons_of_mem a ht)
    · rcases List.mem_cons.mp hkv with hh | ht
      · rw [hh]
        exact hl a (List.mem_cons_self a t)
      · exact ih k v (fun q hq => hl q (List.mem_cons_of_mem a hq)) hv kv ht

theorem processColumns_fold_inv :
    ∀ (props : List (String × Expr)) (acc cols : List (String × Col)),
      (props.foldlM (fun acc kv => do
        let c ← getColumn kv.2 kv.1
        pure (assocSet acc kv.1 c)) acc) = .ok cols →
      (∀ kv ∈ acc, kv.2.primary = some true → kv.2.nullable = false) →
      ∀ kv ∈ cols, kv.2.primary = some true → kv.2.nullable = false := by
  intro props
  induction props with
  | nil =>
    intro acc cols h hacc
    cases h
    exact hacc
  | cons kv0 t ih =>
    intro acc cols h hacc
    rw [List.foldlM_cons] at h
    obtain ⟨acc', hfa, hrest⟩ := except_bind_ok h
    obtain ⟨c, hg, hpure⟩ := except_bind_ok hfa
    have hacc' : assocSet acc kv0.1 c = acc' := Except.ok.inj hpure
    subst hacc'
    exact ih _ _ hrest
      (assocSet_forall (fun c => c.primary = some true → c.nullable = false)
        acc kv0.1 c hacc (getColumn_inv hg))

theorem applyPkEl_inv (cs : List (String × Col)) (el : Expr)
    (h : ∀ kv ∈ cs, kv.2.primary = some true → kv.2.nullable = false) :
    ∀ kv ∈ applyPkEl cs el, kv.2.primary = some true → kv.2.nullable = false := by
  unfold applyPkEl
  repeat' split
  all_goals
    first
    | exact h
    | (intro kv hkv
       obtain ⟨kv0, h0, hEq⟩ := List.mem_map.mp hkv
       subst hEq
       split
       · intro _
         rfl
       · exact h kv0 h0)

theorem foldPk_inv :
    ∀ (els : List Expr) (cs : List (String × Col)),
      (∀ kv ∈ cs, kv.2.primary = some true → kv.2.nullable = false) →
      ∀ kv ∈ els.foldl applyPkEl cs, kv.2.primary = some true → kv.2.nullable = false := by
  intro els
  induction els with
  | nil => intro cs h; exact h
  | cons e t ih =>
    intro cs h
    simp only [List.foldl_cons]
    exact ih _ (applyPkEl_inv cs e h)

theorem pkIdxStep_inv {st st2 : List (String × Col) × List IndexD} {e : Expr}
    (hok : pkIdxStep st e = Except.ok st2)
    (h : ∀ kv ∈ st.1, kv.2.primary = some true → kv.2.nullable = false) :
    ∀ kv ∈ st2.1, kv.2.primary = some true → kv.2.nullable = false := by
  unfold pkIdxStep at hok
  repeat' (split at hok)
  all_goals
    first
    | (cases hok; exact h)
    | (obtain ⟨cols, hcols, hpure⟩ := except_bind_ok hok
       cases hpure
       exact h)
    | (cases hok
       suffices hs : ∀ (props : List (String × Expr)) (cs : List (String × Col)),
          (∀ kv ∈ cs, kv.2.primary = some true → kv.2.nullable = false) →
          ∀ kv ∈ props.foldl (fun cs kv =>
            if kv.1 = "columns" then
              match kv.2 with
              | .arrLit els => els.foldl applyPkEl cs
              | _ => cs
            else cs) cs, kv.2.primary = some true → kv.2.nullable = false by
         exact hs _ _ h
       intro props
       induction props with
       | nil => intro cs hc; exact hc
       | cons kv0 t ih =>
         intro cs hc
         simp only [List.foldl_cons]
         apply ih
         split
         · split
           · exact foldPk_inv _ _ hc
           · exact hc
         · exact hc)

theorem foldPkIdx_inv :
    ∀ (els : List Expr) (st st2 : List (String × Col) × List IndexD),
      els.foldlM pkIdxStep st = Except.ok st2 →
      (∀ kv ∈ st.1, kv.2.primary = some true → kv.2.nullable = false) →
      ∀ kv ∈ st2.1, kv.2.primary = some true → kv.2.nullable = false := by
  intro els
  induction els with
  | nil =>
    intro st st2 hok h
    cases hok
    exact h
  | cons e t ih =>
    intro st st2 hok h
    rw [List.foldlM_cons] at hok
    obtain ⟨st1, hstep, hrest⟩ := except_bind_ok hok
    exact ih st1 st2 hrest (pkIdxStep_inv hstep h)

theorem insertEntity_inv (ed : List EntityData) (entName : String) (tn : Option String)
    (cols : List (String × Col)) (idx : List IndexD)
    (hed : ∀ e ∈ ed, ∀ kv ∈ e.columns, kv.2.primary = some true → kv.2.nullable = false)
    (hcols : ∀ kv ∈ cols, kv.2.primary = some true → kv.2.nullable = false) :
    ∀ e ∈ insertEntity ed entName tn cols idx,
      ∀ kv ∈ e.columns, kv.2.primary = some true → kv.2.nullable = false := by
  unfold insertEntity
  split
  · intro e he
    obtain ⟨e0, h0, hEq⟩ := List.mem_map.mp he
    subst hEq
    split
    · exact hed e0 h0
    · exact hed e0 h0
  · intro e he
    rcases List.mem_append.mp he with h0 | h1
    · exact hed e h0
    · rw [List.mem_singleton.mp h1]
      exact hcols

theorem processTable_inv {v2e : List (String × String)} {ed : List EntityData}
    {dname : String} {args : List Expr} {ed' : List EntityData}
    (h : processTable v2e ed dname args = .ok ed')
    (hed : ∀ e ∈ ed, ∀ kv ∈ e.columns, kv.2.primary = some true → kv.2.nullable = false) :
    ∀ e ∈ ed', ∀ kv ∈ e.columns, kv.2.primary = some true → kv.2.nullable = false := by
  unfold processTable at h
  simp only [] at h
  split at h
  · obtain ⟨cols, hcols, hrest⟩ := except_bind_ok h
    have hcolsP : ∀ kv ∈ cols, kv.2.primary = some true → kv.2.nullable = false :=
      processColumns_fold_inv _ _ _ hcols (by intro kv hkv; cases hkv)
    split at hrest
    · obtain ⟨pr, hpr, hpure⟩ := except_bind_ok hrest
      have hed'' := Except.ok.inj hpure
      subst hed''
      apply insertEntity_inv _ _ _ _ _ hed
      exact foldPkIdx_inv _ _ _ hpr hcolsP
    · have hed'' := Except.ok.inj hrest
      subst hed''
      apply insertEntity_inv _ _ _ _ _ hed
      exact hcolsP
  · obtain ⟨cols, hcols, hrest⟩ := except_bind_ok h
    have hcols' : cols = [] := (Except.ok.inj hcols).symm
    subst hcols'
    split at hrest
    · obtain ⟨pr, hpr, hpure⟩ := except_bind_ok hrest
      have hed'' := Except.ok.inj hpure
      subst hed''
      apply insertEntity_inv _ _ _ _ _ hed
      refine foldPkIdx_inv _ _ _ hpr ?_
      intro kv hkv
      cases hkv
    · have hed'' := Except.ok.inj hrest
      subst hed''
      apply insertEntity_inv _ _ _ _ _ hed
      intro kv hkv
      cases hkv

theorem pass2Step_inv {v2e : List (String × String)}
    {acc acc' : List EntityData × List Stub} {fd : String × VDecl}
    (h : pass2Step v2e acc fd = .ok acc')
    (hed : ∀ e ∈ acc.1, ∀ kv ∈ e.columns, kv.2.primary = some true → kv.2.nullable = false) :
    ∀ e ∈ acc'.1, ∀ kv ∈ e.columns, kv.2.primary = some true → kv.2.nullable = false := by
  unfold pass2Step at h
  split at h
  · obtain ⟨ed1, hpt, hpure⟩ := except_bind_ok h
    have : (ed1, acc.2) = acc' := Except.ok.inj hpure
    subst this
    exact processTable_inv hpt hed
  · obtain ⟨st2, hpr, hpure⟩ := except_bind_ok h
    have : (acc.1, st2) = acc' := Except.ok.inj hpure
    subst this
    exact hed
  · have : acc = acc' := Except.ok.inj h
    subst this
    exact hed

theorem pass2_fold_inv {v2e : List (String × String)} :
    ∀ (ds : List (String × VDecl)) (acc res : List EntityData × List Stub),
      ds.foldlM (pass2Step v2e) acc = .ok res →
      (∀ e ∈ acc.1, ∀ kv ∈ e.columns, kv.2.primary = some true → kv.2.nullable = false) →
      ∀ e ∈ res.1, ∀ kv ∈ e.columns, kv.2.primary = some true → kv.2.nullable = false := by
  intro ds
  induction ds with
  | nil =>
    intro acc res h hacc
    cases h
    exact hacc
  | cons d t ih =>
    intro acc res h hacc
    rw [List.foldlM_cons] at h
    obtain ⟨acc', hstep, hrest⟩ := except_bind_ok h
    exact ih acc' res hrest (pass2Step_inv hstep hacc)

theorem distribute_inv :
    ∀ (stubs : List Stub) (ed ed' : List EntityData),
      distribute ed stubs = .ok ed' →
      (∀ e ∈ ed, ∀ kv ∈ e.columns, kv.2.primary = some true → kv.2.nullable = false) →
      ∀ e ∈ ed', ∀ kv ∈ e.columns, kv.2.primary = some true → kv.2.nullable = false := by
  intro stubs
  unfold distribute
  induction stubs with
  | nil =>
    intro ed ed' h hed
    cases h
    exact hed
  | cons r t ih =>
    intro ed ed' h hed
    rw [List.foldlM_cons] at h
    obtain ⟨ed1, hstep, hrest⟩ := except_bind_ok h
    refine ih ed1 ed' hrest ?_
    simp only [] at hstep
    split at hstep
    · have : _ = ed1 := Except.ok.inj hstep
      subst this
      intro e he
      obtain ⟨e0, h0, hEq⟩ := List.mem_map.mp he
      subst hEq
      split
      · split
        · exact hed e0 h0
        · exact hed e0 h0
      · exact hed e0 h0
    · cases hstep

/-- C7: a not-null or primary-key modifier forces `nullable = false`, and
in the finished entity model `primary = some true` implies
`nullable = false` for every column of every entity (composite-primary-key
membership included, since it assigns both flags together). -/
theorem primary_not_nullable_c7 :
    (∀ files ed, buildEntities files = .ok ed →
      ∀ e ∈ ed, ∀ kv ∈ e.columns, kv.2.primary = some true → kv.2.nullable = false) ∧
    (∀ init nm c, getColumn init nm = .ok c →
      ("notNull" ∈ chainMethods init → c.nullable = false) ∧
      (c.primary = some true → c.nullable = false)) := by
  constructor
  · intro files ed h
    unfold buildEntities at h
    obtain ⟨pr, hp2, hdist⟩ := except_bind_ok h
    have hP := pass2_fold_inv (allDecls files) ([], []) pr hp2 (by intro e he; cases he)
    exact distribute_inv _ _ _ hdist hP
  · intro init nm c hok
    exact ⟨fun hmem => getColumn_notNull hok hmem, getColumn_inv hok⟩

/-- C7 witness: the finished model of a concrete input has a primary
column, and the theorem yields its non-nullability; the getColumn half is
exercised on a concrete not-null chain. -/
theorem primary_not_nullable_c7_witness :
    exVarcharCol.nullable = false ∧ "notNull" ∈ chainMethods exVarcharNotNull :=
  ⟨((primary_not_nullable_c7.2 exVarcharNotNull "username" exVarcharCol rfl).1
      (by decide)),
   by decide⟩

theorem foldl_type {β : Type} (f : Col → β → Col)
    (hf : ∀ c b, (f c b).type = c.type) :
    ∀ (l : List β) (col : Col), (l.foldl f col).type = col.type := by
  intro l
  induction l with
  | nil => intro col; rfl
  | cons b t ih =>
    intro col
    simp only [List.foldl_cons]
    exact (ih (f col b)).trans (hf col b)

theorem applyRefProp_type (col : Col) (k : String) (v : Expr) :
    (applyRefProp col k v).type = col.type := by
  unfold applyRefProp
  repeat' split
  all_goals rfl

theorem applyReferences_type {col : Col} {a0 a1 : Option Expr} {c2 : Col}
    (h : applyReferences col a0 a1 = Except.ok c2) :
    c2.type = col.type := by
  unfold applyReferences at h
  split at h
  · cases h
  · simp only [] at h
    cases h
    repeat' split
    all_goals
      first
      | rfl
      | exact foldl_type (fun c (kv : String × Expr) => applyRefProp c kv.1 kv.2)
          (fun c kv => applyRefProp_type c kv.1 kv.2) _ _

theorem applyModifier_type (col : Col) (m : Option String) (args : List Expr) (nm : String)
    (h : m ≠ some "defaultRandom") :
    (applyModifier col m args nm).type = col.type := by
  unfold applyModifier
  repeat' (first | split | (simp only []; split))
  all_goals
    first
    | rfl
    | (exfalso; exact h rfl)

theorem chainApply_type : ∀ (nm : String) (col : Col) (e : Expr),
    "defaultRandom" ∉ chainMethods e → ∀ c2, chainApply nm col e = Except.ok c2 →
    c2.type = col.type := by
  intro nm col e
  induction col, e using chainApply.induct nm
  case case1 col obj args ih =>
    intro hmem c2 hc
    simp only [chainMethods] at hmem
    simp only [chainApply] at hc
    rw [if_pos trivial] at hc
    obtain ⟨c, href, hrest⟩ := except_bind_ok hc
    rw [ih c (fun hx => hmem (List.mem_cons_of_mem _ hx)) c2 hrest]
    exact applyReferences_type href
  case case2 col obj m args hm ih =>
    intro hmem c2 hc
    simp only [chainMethods] at hmem
    simp only [chainApply] at hc
    rw [if_neg hm] at hc
    have hmd : (some m : Option String) ≠ some "defaultRandom" := by
      intro hc2
      exact hmem (by rw [Option.some.inj hc2]; exact List.mem_cons_self _ _)
    rw [ih (fun hx => hmem (List.mem_cons_of_mem _ hx)) c2 hc]
    exact applyModifier_type _ _ _ _ hmd
  case case3 col e2 args ih =>
    intro hmem c2 hc
    simp only [chainMethods] at hmem
    simp only [chainApply] at hc
    exact ih hmem c2 hc
  case case4 col c0 a args ih =>
    intro hmem c2 hc
    simp only [chainMethods] at hmem
    simp only [chainApply] at hc
    exact ih hmem c2 hc
  case case5 col callee args h1 h2 h3 =>
    intro _ c2 hc
    cases callee <;>
      first
      | exact absurd rfl (h1 _ _)
      | exact absurd rfl (h2 _)
      | exact absurd rfl (h3 _ _)
      | (cases hc; rfl)
  case case6 t col h1 h2 h3 h4 =>
    intro _ c2 hc
    cases t <;>
      first
      | exact absurd rfl (h4 _ _)
      | (cases hc; rfl)

theorem postProcess_type (nm : String) (col : Col) :
    (postProcessCol nm col).type = col.type := by
  unfold postProcessCol
  repeat' (first | split | (simp only []; split))
  all_goals rfl

theorem applyOptProp_type (col : Col) (k : String) (v : Expr)
    (he : ¬(k = "enum" ∧ ∃ es, v = .arrLit es))
    (ht : ¬(k = "withTimezone" ∧ v = .trueKw)) :
    (applyOptProp col k v).type = col.type := by
  unfold applyOptProp
  repeat' split
  all_goals
    first
    | rfl
    | (exfalso; apply he; exact ⟨by assumption, _, rfl⟩)
    | (exfalso; apply ht; exact ⟨by assumption, rfl⟩)

theorem foldOpt_type :
    ∀ (props : List (String × Expr)),
      (∀ kv ∈ props, ¬(kv.1 = "enum" ∧ ∃ es, kv.2 = Expr.arrLit es)) →
      (∀ kv ∈ props, ¬(kv.1 = "withTimezone" ∧ kv.2 = Expr.trueKw)) →
      ∀ col : Col, (props.foldl (fun c kv => applyOptProp c kv.1 kv.2) col).type = col.type := by
  intro props
  induction props with
  | nil =>
    intro _ _ col
    rfl
  | cons kv t ih =>
    intro he ht col
    simp only [List.foldl_cons]
    rw [ih (fun q hq => he q (List.mem_cons_of_mem _ hq))
        (fun q hq => ht q (List.mem_cons_of_mem _ hq)),
      applyOptProp_type _ _ _ (he kv (List.mem_cons_self _ _)) (ht kv (List.mem_cons_self _ _))]

/-- The modifier walk returns normally on a chain with no argument-less
`references` frame. -/
theorem chainApply_safe : ∀ (nm : String) (col : Col) (e : Expr),
    refSafe e = true → ∃ c2, chainApply nm col e = Except.ok c2 := by
  intro nm col e
  induction col, e using chainApply.induct nm
  case case1 col obj args ih =>
    intro hs
    cases args with
    | nil => simp [refSafe] at hs
    | cons a rest =>
      simp only [refSafe, Bool.and_eq_true] at hs
      obtain ⟨cp, hcp⟩ : ∃ cp, applyReferences col ((a :: rest).head?)
          ((a :: rest).get? 1) = Except.ok cp := by
        unfold applyReferences
        exact ⟨_, rfl⟩
      obtain ⟨c2, hc2⟩ := ih cp hs.2
      refine ⟨c2, ?_⟩
      simp only [chainApply]
      rw [if_pos trivial, hcp]
      exact hc2
  case case2 col obj m args hm ih =>
    intro hs
    simp only [refSafe, Bool.and_eq_true] at hs
    obtain ⟨c2, hc2⟩ := ih hs.2
    refine ⟨c2, ?_⟩
    simp only [chainApply]
    rw [if_neg hm]
    exact hc2
  case case3 col e2 args ih =>
    intro hs
    simp only [refSafe] at hs
    obtain ⟨c2, hc2⟩ := ih hs
    exact ⟨c2, hc2⟩
  case case4 col c0 a args ih =>
    intro hs
    simp only [refSafe] at hs
    obtain ⟨c2, hc2⟩ := ih hs
    exact ⟨c2, hc2⟩
  case case5 col callee args h1 h2 h3 =>
    intro _
    cases callee <;>
      first
      | exact absurd rfl (h1 _ _)
      | exact absurd rfl (h2 _)
      | exact absurd rfl (h3 _ _)
      | exact ⟨col, rfl⟩
  case case6 t col h1 h2 h3 h4 =>
    intro _
    cases t <;>
      first
      | exact absurd rfl (h4 _ _)
      | exact ⟨col, rfl⟩

/-- Chains rooted in a direct call and free of argument-less `references`
frames never raise: `getColumn` returns normally. -/
theorem getColumn_rooted_ok (init : Expr) (nm : String) (h : rootedCol init = true)
    (hrs : refSafe init = true) :
    ∃ c, getColumn init nm = Except.ok c := by
  unfold getColumn
  split
  · exact ⟨{}, rfl⟩
  next hcall =>
    have hic : init.isCall = true := by
      cases hb : init.isCall
      · exfalso
        apply hcall
        rw [hb]
        rfl
      · rfl
    unfold rootedCol at h
    rw [hic] at h
    simp only [Bool.not_true, Bool.false_or] at h
    split
    · have hgen : ∀ col0 : Col,
          ∃ c, (chainApply nm col0 init).map (postProcessCol nm) = Except.ok c := by
        intro col0
        obtain ⟨c4, hc4⟩ := chainApply_safe nm col0 init hrs
        refine ⟨postProcessCol nm c4, ?_⟩
        rw [hc4]
        rfl
      exact hgen _
    next h1 =>
      exfalso
      cases hroot : peelRoot init <;> rw [hroot] at h <;>
        first
        | exact h1 _ _ hroot
        | simp [Expr.isCall] at h

/-- C8 (amended): `getColumn` returns the exact default descriptor for any
initializer that is not a call; it returns normally for every initializer
whose call chain bottoms out in a direct call and has no argument-less
`references` frame; and a chain whose root target name is absent from the
fixed type table yields type "text" provided no enum option, timezone
option or random-default modifier retypes the column.  (A chain bottoming
out in a non-call raises a TypeError, as does a bare `.references()`, and
the retyping options override the "text" fallback — see the
counterexample.) -/
theorem getColumn_default_c8 :
    (∀ init nm, init.isCall = false → getColumn init nm = .ok {}) ∧
    (∀ init nm, rootedCol init = true → refSafe init = true →
      ∃ c, getColumn init nm = .ok c) ∧
    (∀ init nm c, getColumn init nm = .ok c →
      (rootNameOf init).bind typeMapLookup = none →
      hasEnumOpt init = false → hasTZOpt init = false →
      "defaultRandom" ∉ chainMethods init → c.type = "text") := by
  refine ⟨?_, ?_, ?_⟩
  · intro init nm h
    unfold getColumn
    rw [h]
    rfl
  · exact getColumn_rooted_ok
  · intro init nm c hok hmap henum htz hdr
    unfold getColumn at hok
    split at hok
    next =>
      cases hok
      rfl
    next =>
      split at hok
      case h_1 callee args heq =>
        obtain ⟨c4, hchain, hpost⟩ := except_map_ok hok
        subst hpost
        rw [postProcess_type, chainApply_type _ _ _ hdr c4 hchain]
        have hrn : rootNameOf init = escapedTextOf callee := by
          unfold rootNameOf
          rw [heq]
        rw [hrn] at hmap
        have hbase : toType (escapedTextOf callee) = "text" := by
          cases hcal : escapedTextOf callee with
          | none => rfl
          | some s =>
            rw [hcal] at hmap
            have hmm : typeMapLookup s = none := by
              simpa using hmap
            show (typeMapLookup s).getD "text" = "text"
            rw [hmm]
            rfl
        unfold hasEnumOpt at henum
        unfold hasTZOpt at htz
        rw [heq] at henum htz
        have henum2 : (match args.get? 1 with
            | some (Expr.objLit props) => props.any enumOptPred
            | _ => false) = false := henum
        have htz2 : (match args.get? 1 with
            | some (Expr.objLit props) => props.any tzOptPred
            | _ => false) = false := htz
        split
        case h_1 props hprops =>
          rw [hprops] at henum2 htz2
          have henum3 : props.any enumOptPred = false := henum2
          have htz3 : props.any tzOptPred = false := htz2
          have he : ∀ kv ∈ props, ¬(kv.1 = "enum" ∧ ∃ es, kv.2 = Expr.arrLit es) := by
            intro kv hkv hc
            obtain ⟨h1, es, h2⟩ := hc
            have hfa := List.any_eq_false.mp henum3 kv hkv
            apply hfa
            unfold enumOptPred
            rw [h1, h2]
            rfl
          have ht : ∀ kv ∈ props, ¬(kv.1 = "withTimezone" ∧ kv.2 = Expr.trueKw) := by
            intro kv hkv hc
            obtain ⟨h1, h2⟩ := hc
            have hfa := List.any_eq_false.mp htz3 kv hkv
            apply hfa
            unfold tzOptPred
            rw [h1, h2]
            rfl
          rw [foldOpt_type props he ht]
          repeat' split
          all_goals exact hbase
        case h_2 =>
          repeat' split
          all_goals exact hbase
      case h_2 =>
        cases hok

/-- Witness for C8: a bare string initializer gives the default descriptor,
and `money("m")` — whose root name is not in the type table and which carries
no retyping option — gets type "text". -/
theorem getColumn_default_c8_witness :
    ((Expr.strLit "x").isCall = false ∧ getColumn (Expr.strLit "x") "x" = .ok {}) ∧
    (getColumn exMoney "m" = Except.ok ({} : Col) ∧ ({} : Col).type = "text") := by
  constructor
  · exact ⟨rfl, getColumn_default_c8.1 (Expr.strLit "x") "x" rfl⟩
  · refine ⟨rfl, getColumn_default_c8.2.2 exMoney "m" {} rfl rfl rfl rfl ?_⟩
    decide

/-- `assocGet` after `assocSet`. -/
theorem assocGet_set {α : Type} (m : List (String × α)) (k q : String) (v : α) :
    assocGet (assocSet m k v) q = if k = q then some v else assocGet m q := by
  induction m with
  | nil =>
    by_cases h : k = q <;> simp [assocSet, assocGet, h]
  | cons kv t ih =>
    obtain ⟨k1, v1⟩ := kv
    by_cases h1 : k1 = k
    · subst h1
      by_cases h2 : k1 = q <;> simp [assocSet, assocGet, h2]
    · by_cases h2 : k1 = q
      · subst h2
        simp [assocSet, assocGet, h1]
        rw [if_neg (fun hc => h1 hc.symm)]
      · simp [assocSet, assocGet, h1, h2, ih]

/-- Every key of the pass-1 variable registry was put there by a `pgTable`
declaration. -/
theorem pass1_key_table :
    ∀ (l : List (String × VDecl)) (acc : List (String × String) × List (String × String))
      (d : String),
    (assocGet (l.foldl pass1Step acc).1 d).isSome = true →
    (∃ fd ∈ l, fd.2.name = d ∧
      ∃ args, fd.2.init = some (.call (.ident "pgTable") args)) ∨
    (assocGet acc.1 d).isSome = true := by
  intro l
  induction l with
  | nil => intro acc d h; exact Or.inr h
  | cons fd t ih =>
    intro acc d h
    rw [List.foldl_cons] at h
    rcases ih (pass1Step acc fd) d h with hl | hr
    · obtain ⟨g, hg, hname, args, hinit⟩ := hl
      exact Or.inl ⟨g, List.mem_cons_of_mem _ hg, hname, args, hinit⟩
    · unfold pass1Step at hr
      split at hr
      next args heq =>
        rw [assocGet_set] at hr
        split at hr
        next he =>
          exact Or.inl ⟨fd, List.mem_cons_self _ _, he, args, heq⟩
        next =>
          exact Or.inr hr
      next =>
        exact Or.inr hr

/-- `insertEntity` registers the inserted name. -/
theorem insertEntity_present (ed : List EntityData) (n : String) (tn : Option String)
    (cols : List (String × Col)) (idx : List IndexD) :
    entPresent (insertEntity ed n tn cols idx) n = true := by
  unfold insertEntity entPresent
  split
  next hany =>
    rw [List.any_map]
    rw [List.any_eq_true] at hany ⊢
    obtain ⟨e, he, hn⟩ := hany
    refine ⟨e, he, ?_⟩
    simp only [Function.comp]
    rw [hn]
    simpa using hn
  next =>
    rw [List.any_append]
    simp [List.any_cons]

/-- `insertEntity` keeps every registered name. -/
theorem insertEntity_mono (ed : List EntityData) (n : String) (tn : Option String)
    (cols : List (String × Col)) (idx : List IndexD) (q : String)
    (h : entPresent ed q = true) :
    entPresent (insertEntity ed n tn cols idx) q = true := by
  unfold insertEntity entPresent
  unfold entPresent at h
  split
  · rw [List.any_map]
    rw [List.any_eq_true] at h ⊢
    obtain ⟨e, he, hn⟩ := h
    refine ⟨e, he, ?_⟩
    simp only [Function.comp]
    split <;> simpa using hn
  · rw [List.any_append, h]
    rfl

theorem except_ok_bind {α β : Type} (a : α) (f : α → Except String β) :
    (Except.ok a >>= f) = f a := rfl

/-- Column extraction succeeds on a property list of rooted,
`references`-safe initializers (generalized over the fold accumulator). -/
theorem processColumns_fold_total :
    ∀ (props : List (String × Expr)) (acc : List (String × Col)),
    props.all (fun kv => rootedCol kv.2 && refSafe kv.2) = true →
    ∃ cs, props.foldlM (fun acc kv => do
      let c ← getColumn kv.2 kv.1
      pure (assocSet acc kv.1 c)) acc = Except.ok cs := by
  intro props
  induction props with
  | nil => intro acc _; exact ⟨acc, rfl⟩
  | cons kv t ih =>
    intro acc h
    rw [List.all_cons, Bool.and_eq_true] at h
    have h1 := h.1
    rw [Bool.and_eq_true] at h1
    obtain ⟨c, hc⟩ := getColumn_rooted_ok kv.2 kv.1 h1.1 h1.2
    obtain ⟨cs, hcs⟩ := ih (assocSet acc kv.1 c) h.2
    refine ⟨cs, ?_⟩
    rw [List.foldlM_cons, hc]
    exact hcs

/-- `processColumns` succeeds when every initializer is rooted and
`references`-safe. -/
theorem processColumns_total (props : List (String × Expr))
    (h : props.all (fun kv => rootedCol kv.2 && refSafe kv.2) = true) :
    ∃ cs, processColumns props = Except.ok cs :=
  processColumns_fold_total props [] h

/-- The `.on` column collection succeeds on an `.on`-safe chain. -/
theorem collectOnCols_total : ∀ (e : Expr), onSafe e = true →
    ∃ l, collectOnCols e = Except.ok l := by
  intro e
  induction e using collectOnCols.induct
  case case1 obj args heq =>
    intro hs
    have hs2 : (!args.isEmpty && onSafe obj) = true := hs
    cases args with
    | nil => simp at hs2
    | cons a rest => simp at heq
  case case2 obj args obj2 n heq ih =>
    intro hs
    have hs2 : (!args.isEmpty && onSafe obj) = true := hs
    rw [Bool.and_eq_true] at hs2
    obtain ⟨rest, hrest⟩ := ih hs2.2
    refine ⟨n :: rest, ?_⟩
    simp only [collectOnCols]
    rw [heq]
    show (collectOnCols obj >>= fun rest2 =>
      (pure (n :: rest2) : Except String (List String))) = Except.ok (n :: rest)
    rw [hrest, except_ok_bind]
    rfl
  case case3 obj args val hnp heq ih =>
    intro hs
    have hs2 : (!args.isEmpty && onSafe obj) = true := hs
    rw [Bool.and_eq_true] at hs2
    obtain ⟨l, hl⟩ := ih hs2.2
    refine ⟨l, ?_⟩
    simp only [collectOnCols]
    rw [heq]
    split
    next hinj => exact Option.noConfusion hinj
    next obj3 n3 hinj => exact absurd (Option.some.inj hinj) (hnp _ _)
    next => exact hl
  case case4 e hno =>
    intro _
    refine ⟨[], ?_⟩
    rw [collectOnCols.eq_def]
    split
    all_goals first | rfl | exact absurd rfl (hno _ _)

/-- One configuration element is processed without error when it is
`.on`-safe. -/
theorem pkIdxStep_total (st : List (String × Col) × List IndexD) (e : Expr)
    (h : idxSafe e = true) : ∃ st2, pkIdxStep st e = Except.ok st2 := by
  cases e
  case call callee args =>
    have h2 : (if escapedTextOf callee = some "primaryKey" then true
        else
          (match peelOn (Expr.call callee args) with
           | Expr.call rootCallee _ =>
             (match escapedTextOf rootCallee with
              | some rn => if rn = "index" || rn = "uniqueIndex" then
                  onSafe (Expr.call callee args) else true
              | none => true)
           | _ => true)) = true := h
    show ∃ st2, (if escapedTextOf callee = some "primaryKey" then
        (match args.head? with
         | some (Expr.objLit props) =>
           Except.ok (props.foldl (fun cs kv =>
             if kv.1 = "columns" then
               match kv.2 with
               | Expr.arrLit els => els.foldl applyPkEl cs
               | _ => cs
             else cs) st.1, st.2)
         | _ => Except.ok st)
      else
        (match peelOn (Expr.call callee args) with
         | Expr.call rootCallee rargs =>
           (match escapedTextOf rootCallee with
            | some rn =>
              if rn = "index" || rn = "uniqueIndex" then
                (collectOnCols (Expr.call callee args) >>= fun cols =>
                  Except.ok (st.1, st.2 ++ [⟨rargs.head?.bind textOf, cols,
                    rn = "uniqueIndex"⟩]))
              else Except.ok st
            | none => Except.ok st)
         | _ => Except.ok st)) = Except.ok st2
    by_cases hpk : escapedTextOf callee = some "primaryKey"
    · rw [if_pos hpk]
      cases hh : args.head? with
      | none => exact ⟨_, rfl⟩
      | some v => cases v <;> exact ⟨_, rfl⟩
    · rw [if_neg hpk]
      rw [if_neg hpk] at h2
      cases hpe : peelOn (Expr.call callee args) <;> try exact ⟨_, rfl⟩
      rename_i rootCallee rargs
      rw [hpe] at h2
      have h3 : (match escapedTextOf rootCallee with
          | some rn => if rn = "index" || rn = "uniqueIndex" then
              onSafe (Expr.call callee args) else true
          | none => true) = true := h2
      show ∃ st2, (match escapedTextOf rootCallee with
          | some rn =>
            if rn = "index" || rn = "uniqueIndex" then
              (collectOnCols (Expr.call callee args) >>= fun cols =>
                Except.ok (st.1, st.2 ++ [⟨rargs.head?.bind textOf, cols,
                  rn = "uniqueIndex"⟩]))
            else Except.ok st
          | none => Except.ok st) = Except.ok st2
      cases hrc : escapedTextOf rootCallee with
      | none => exact ⟨_, rfl⟩
      | some rn =>
        rw [hrc] at h3
        have h4 : (if rn = "index" || rn = "uniqueIndex" then
            onSafe (Expr.call callee args) else true) = true := h3
        show ∃ st2, (if rn = "index" || rn = "uniqueIndex" then
            (collectOnCols (Expr.call callee args) >>= fun cols =>
              Except.ok (st.1, st.2 ++ [⟨rargs.head?.bind textOf, cols,
                rn = "uniqueIndex"⟩]))
          else Except.ok st) = Except.ok st2
        by_cases hidx : (rn = "index" || rn = "uniqueIndex") = true
        · rw [if_pos hidx] at h4
          rw [if_pos hidx]
          obtain ⟨cols, hcols⟩ := collectOnCols_total _ h4
          rw [hcols, except_ok_bind]
          exact ⟨_, rfl⟩
        · rw [if_neg hidx]
          exact ⟨st, rfl⟩
  all_goals exact ⟨st, rfl⟩

/-- The whole configuration fold is processed without error when every
element is `.on`-safe. -/
theorem foldPkIdx_total :
    ∀ (els : List Expr) (st : List (String × Col) × List IndexD),
      els.all idxSafe = true →
      ∃ st2, els.foldlM pkIdxStep st = Except.ok st2 := by
  intro els
  induction els with
  | nil => intro st _; exact ⟨st, rfl⟩
  | cons e t ih =>
    intro st h
    rw [List.all_cons, Bool.and_eq_true] at h
    obtain ⟨st1, hst1⟩ := pkIdxStep_total st e h.1
    obtain ⟨st2, hst2⟩ := ih st1 h.2
    refine ⟨st2, ?_⟩
    rw [List.foldlM_cons, hst1, except_ok_bind]
    exact hst2

/-- Totality of the configuration-argument dispatch, abstracted over the
continuation. -/
theorem idxMatch_total {γ : Type} (d : Option Expr)
    (g : List (String × Col) × List IndexD → γ)
    (hidx : (match d with
             | some (.arrow (.arrLit els)) => els.all idxSafe
             | _ => true) = true)
    (cs : List (String × Col)) :
    ∃ pr r, (match d with
          | some (.arrow (.arrLit els)) =>
            List.foldlM pkIdxStep (cs, ([] : List IndexD)) els >>= fun pr => pure (g pr)
          | _ => (pure (g (cs, [])) : Except String γ)) = Except.ok r ∧ r = g pr := by
  split
  · rename_i els
    have hidx2 : els.all idxSafe = true := hidx
    obtain ⟨pr, hpr⟩ := foldPkIdx_total els (cs, []) hidx2
    refine ⟨pr, g pr, ?_, rfl⟩
    rw [hpr, except_ok_bind]
    rfl
  · exact ⟨(cs, []), g (cs, []), rfl, rfl⟩

/-- A well-formed `pgTable` declaration is processed without error, the
declared entity is registered, and all previously registered names
survive. -/
theorem processTable_total (v2e : List (String × String)) (ed : List EntityData)
    (dname : String) (args : List Expr)
    (h : (match args.get? 1 with
          | some (.objLit props) => props.all (fun kv => rootedCol kv.2 && refSafe kv.2)
          | _ => true) = true)
    (hidx : (match args.get? 2 with
          | some (.arrow (.arrLit els)) => els.all idxSafe
          | _ => true) = true) :
    ∃ ed', processTable v2e ed dname args = Except.ok ed' ∧
      entPresent ed' ((assocGet v2e dname).getD "undefined") = true ∧
      ∀ q, entPresent ed q = true → entPresent ed' q = true := by
  unfold processTable
  simp only []
  split
  next props hprops =>
    rw [hprops] at h
    obtain ⟨cs, hcs⟩ := processColumns_total props h
    obtain ⟨pr, r, hr, hrg⟩ := idxMatch_total (args.get? 2)
      (fun pr => insertEntity ed ((assocGet v2e dname).getD "undefined")
        (match args.head? with
         | some (Expr.strLit t) => some t
         | _ => none) pr.1 pr.2) hidx cs
    refine ⟨r, ?_, ?_, ?_⟩
    · rw [hcs, except_ok_bind]
      exact hr
    · rw [hrg]
      exact insertEntity_present _ _ _ _ _
    · intro q hq
      rw [hrg]
      exact insertEntity_mono _ _ _ _ _ _ hq
  next =>
    obtain ⟨pr, r, hr, hrg⟩ := idxMatch_total (args.get? 2)
      (fun pr => insertEntity ed ((assocGet v2e dname).getD "undefined")
        (match args.head? with
         | some (Expr.strLit t) => some t
         | _ => none) pr.1 pr.2) hidx []
    refine ⟨r, ?_, ?_, ?_⟩
    · exact hr
    · rw [hrg]
      exact insertEntity_present _ _ _ _ _
    · intro q hq
      rw [hrg]
      exact insertEntity_mono _ _ _ _ _ _ hq

/-- Relation options never touch the stub's source entity. -/
theorem applyRelOpt_fromEntity (acc : Stub × Option String) (kv : String × Expr) :
    (applyRelOpt acc kv).1.fromEntity = acc.1.fromEntity := by
  unfold applyRelOpt
  repeat' (first | rfl | (simp only []; split) | split)

/-- Folded over a whole options object. -/
theorem foldRelOpt_fromEntity :
    ∀ (props : List (String × Expr)) (acc : Stub × Option String),
    (props.foldl applyRelOpt acc).1.fromEntity = acc.1.fromEntity := by
  intro props
  induction props with
  | nil => intro acc; rfl
  | cons kv t ih =>
    intro acc
    rw [List.foldl_cons, ih, applyRelOpt_fromEntity]

/-- The join-column stage never touches the source entity. -/
theorem relJoin_fromEntity (ed : List EntityData) (s1 : Stub) (fk : Option String) :
    (relJoin ed s1 fk).fromEntity = s1.fromEntity := by
  unfold relJoin
  split <;> rfl

/-- The column-copy stage never touches the source entity. -/
theorem relApplyCol_fromEntity (s2 : Stub) (colOpt : Option Col) :
    (relApplyCol s2 colOpt).fromEntity = s2.fromEntity := by
  unfold relApplyCol
  split
  · simp only []
    repeat' split
    all_goals rfl
  · rfl

/-- The stub built by `processRelProp` keeps the source entity looked up in
the pass-1 registry. -/
theorem processRelProp_fromEntity {v2e : List (String × String)} {ed : List EntityData}
    {fromVar : Option String} {ln : String} {c : Expr} {a : List Expr} {s : Stub}
    (h : processRelProp v2e ed fromVar ln c a = some s) :
    s.fromEntity = assocGet v2e ((fromVar).getD "undefined") := by
  unfold processRelProp at h
  simp only [] at h
  split at h
  · cases h
  · cases h
    rw [relApplyCol_fromEntity, relJoin_fromEntity]
    split
    · rw [foldRelOpt_fromEntity]
    · rfl

/-- Invariant transport through the stub-collecting fold of a relations
body. -/
theorem relStubs_fold_inv (v2e : List (String × String)) (ed : List EntityData)
    (fromVar : Option String) (P : Stub → Prop)
    (hstep : ∀ ln c a s, processRelProp v2e ed fromVar ln c a = some s → P s) :
    ∀ (props : List (String × Expr)) (st : List Stub), (∀ s ∈ st, P s) →
    ∀ s ∈ props.foldl (fun st kv =>
        match kv.2 with
        | Expr.call c a =>
          match processRelProp v2e ed fromVar kv.1 c a with
          | some s => st ++ [s]
          | none => st
        | _ => st) st, P s := by
  intro props
  induction props with
  | nil => intro st hst s hs; exact hst s hs
  | cons kv t ih =>
    intro st hst s hs
    rw [List.foldl_cons] at hs
    refine ih _ ?_ s hs
    intro x hx
    split at hx
    next c a =>
      split at hx
      next y hy =>
        rcases List.mem_append.mp hx with hl | hr
        · exact hst x hl
        · rw [List.mem_singleton] at hr
          subst hr
          exact hstep _ _ _ _ hy
      next => exact hst x hx
    next => exact hst x hx

/-- Invariant transport through one relations body, whatever shape it
has. -/
theorem relBody_inv (v2e : List (String × String)) (ed : List EntityData)
    (fromVar : Option String) (P : Stub → Prop) (stubs : List Stub) (body : Expr)
    (hstep : ∀ ln c a s, processRelProp v2e ed fromVar ln c a = some s → P s)
    (hst : ∀ s ∈ stubs, P s) :
    ∀ s ∈ (match body with
           | Expr.objLit props =>
             props.foldl (fun (st : List Stub) (kv : String × Expr) =>
               match kv.2 with
               | Expr.call c a =>
                 match processRelProp v2e ed fromVar kv.1 c a with
                 | some s => st ++ [s]
                 | none => st
               | _ => st) stubs
           | _ => stubs), P s := by
  split
  next props => exact relStubs_fold_inv v2e ed fromVar P hstep props stubs hst
  next => exact hst

/-- A well-formed `relations` declaration is processed without error, and
every appended stub has its source entity registered in the pass-1
registry; previously collected stubs keep the property. -/
theorem processRelations_inv {v2e : List (String × String)} {ed : List EntityData}
    {stubs : List Stub} {args : List Expr} {v : String} {e2 : Expr}
    (hv : args.head? = some (Expr.ident v))
    (hreg : (assocGet v2e v).isSome = true)
    (h2 : args.get? 1 = some e2)
    (hst : ∀ s ∈ stubs, stubSrcReg v2e s) :
    ∃ st2, processRelations v2e ed stubs args = Except.ok st2 ∧
      ∀ s ∈ st2, stubSrcReg v2e s := by
  have hstep : ∀ ln c a x, processRelProp v2e ed
      ((some (Expr.ident v)).bind escapedTextOf) ln c a = some x → stubSrcReg v2e x := by
    intro ln c a x hx
    have hfe := processRelProp_fromEntity hx
    obtain ⟨ent, hent⟩ := Option.isSome_iff_exists.mp hreg
    refine ⟨v, ent, hent, ?_⟩
    rw [hfe]
    show assocGet v2e v = some ent
    exact hent
  unfold processRelations
  rw [hv, h2]
  cases e2
  case arrow body0 =>
    refine ⟨_, rfl, ?_⟩
    exact relBody_inv v2e ed _ (stubSrcReg v2e) stubs _ hstep hst
  all_goals exact ⟨stubs, rfl, hst⟩

/-- One well-formed declaration is processed without error; collected stubs
keep registered sources, registered entity names survive, and a `pgTable`
declaration registers its entity. -/
theorem pass2Step_wf (v2e : List (String × String))
    (acc : List EntityData × List Stub) (fd : String × VDecl)
    (hwf : wfDecl v2e fd = true)
    (hst : ∀ s ∈ acc.2, stubSrcReg v2e s) :
    ∃ r, pass2Step v2e acc fd = Except.ok r ∧
      (∀ s ∈ r.2, stubSrcReg v2e s) ∧
      (∀ q, entPresent acc.1 q = true → entPresent r.1 q = true) ∧
      (∀ args, (fd.2).init = some (.call (.ident "pgTable") args) →
        entPresent r.1 ((assocGet v2e (fd.2).name).getD "undefined") = true) := by
  unfold pass2Step
  unfold wfDecl at hwf
  split
  next args heq =>
    rw [heq] at hwf
    have hwf2 : ((match args.get? 1 with
        | some (Expr.objLit props) => props.all (fun kv => rootedCol kv.2 && refSafe kv.2)
        | _ => true) &&
      (match args.get? 2 with
       | some (.arrow (.arrLit els)) => els.all idxSafe
       | _ => true)) = true := hwf
    rw [Bool.and_eq_true] at hwf2
    obtain ⟨ed', hok, hpres, hmono⟩ :=
      processTable_total v2e acc.1 (fd.2).name args hwf2.1 hwf2.2
    refine ⟨(ed', acc.2), ?_, hst, hmono, ?_⟩
    · rw [hok]
      rfl
    · intro args2 heq2
      rw [heq] at heq2
      cases heq2
      exact hpres
  next args heq =>
    rw [heq] at hwf
    have hwf2 : ((match args.head? with
        | some (Expr.ident v) => (assocGet v2e v).isSome
        | _ => false) && (args.get? 1).isSome) = true := hwf
    rw [Bool.and_eq_true] at hwf2
    obtain ⟨e2, he2⟩ := Option.isSome_iff_exists.mp hwf2.2
    have hwf3 := hwf2.1
    split at hwf3
    next v hv =>
      obtain ⟨st2, hok, hinv⟩ := processRelations_inv hv hwf3 he2 hst
      refine ⟨(acc.1, st2), ?_, hinv, fun q h => h, ?_⟩
      · rw [hok, except_ok_bind]
        rfl
      · intro args2 heq2
        rw [heq] at heq2
        simp at heq2
    next =>
      cases hwf3
  next h1 h2 =>
    refine ⟨acc, rfl, hst, fun q h => h, ?_⟩
    intro args2 heq2
    exact absurd heq2 (h1 args2)

/-- Pass 2 over a list of well-formed declarations: no error, stub sources
registered, entity names monotone, and every `pgTable` declaration's entity
registered in the result. -/
theorem pass2_fold_wf (v2e : List (String × String)) :
    ∀ (l : List (String × VDecl)) (acc : List EntityData × List Stub),
    (∀ fd ∈ l, wfDecl v2e fd = true) →
    (∀ s ∈ acc.2, stubSrcReg v2e s) →
    ∃ r, l.foldlM (pass2Step v2e) acc = Except.ok r ∧
      (∀ s ∈ r.2, stubSrcReg v2e s) ∧
      (∀ q, entPresent acc.1 q = true → entPresent r.1 q = true) ∧
      (∀ fd ∈ l, ∀ args, (fd.2).init = some (.call (.ident "pgTable") args) →
        entPresent r.1 ((assocGet v2e (fd.2).name).getD "undefined") = true) := by
  intro l
  induction l with
  | nil =>
    intro acc _ hst
    exact ⟨acc, rfl, hst, fun q h => h, fun fd hfd => absurd hfd (List.not_mem_nil fd)⟩
  | cons fd t ih =>
    intro acc hwf hst
    obtain ⟨r1, hok1, hst1, hmono1, hpg1⟩ :=
      pass2Step_wf v2e acc fd (hwf fd (List.mem_cons_self _ _)) hst
    obtain ⟨r, hok, hstr, hmono, hpg⟩ :=
      ih r1 (fun g hg => hwf g (List.mem_cons_of_mem _ hg)) hst1
    refine ⟨r, ?_, hstr, fun q hq => hmono q (hmono1 q hq), ?_⟩
    · rw [List.foldlM_cons, hok1]
      exact hok
    · intro g hg args hinit
      rcases List.mem_cons.mp hg with hl | hr
      · subst hl
        exact hmono _ (hpg1 args hinit)
      · exact hpg g hr args hinit

/-- The resolver never rewrites a stub's source entity (pointwise by
position). -/
theorem resolveStubs_fromEntity (stubs : List Stub) (m : Nat) :
    ((resolveStubs stubs).get? m).map (fun s => s.fromEntity) =
      (stubs.get? m).map (fun s => s.fromEntity) := by
  rw [resolveStubs_as_steps]
  exact resolvePrefix_map (fun s => s.fromEntity)
    (fun s v => rfl) (fun s v => rfl) (fun s v => rfl) stubs _ m

/-- Membership form: every resolved stub has the source entity of some
input stub. -/
theorem resolveStubs_mem_fromEntity {stubs : List Stub} {s : Stub}
    (h : s ∈ resolveStubs stubs) : ∃ x ∈ stubs, x.fromEntity = s.fromEntity := by
  obtain ⟨m, hm⟩ := List.get?_of_mem h
  have hmap := resolveStubs_fromEntity stubs m
  rw [hm] at hmap
  cases hx : stubs.get? m with
  | none =>
    rw [hx] at hmap
    cases hmap
  | some x =>
    rw [hx] at hmap
    refine ⟨x, List.get?_mem hx, ?_⟩
    have := Option.some.inj hmap
    exact this.symm

/-- A name-preserving map keeps the registered-entity test. -/
theorem any_name_map (ed : List EntityData) (f : EntityData → EntityData)
    (hf : ∀ e, (f e).name = e.name) (q : String) :
    (ed.map f).any (fun e => e.name == q) = ed.any (fun e => e.name == q) := by
  induction ed with
  | nil => rfl
  | cons e t ih => simp [List.any_cons, hf, ih]

/-- Distribution succeeds when every stub's source entity is registered. -/
theorem distribute_total :
    ∀ (stubs : List Stub) (ed : List EntityData),
    (∀ s ∈ stubs, entPresent ed ((s.fromEntity).getD "undefined") = true) →
    ∃ out, distribute ed stubs = Except.ok out := by
  intro stubs
  induction stubs with
  | nil => intro ed _; exact ⟨ed, rfl⟩
  | cons r t ih =>
    intro ed hall
    have hr : ed.any (fun e => e.name == ((r.fromEntity).getD "undefined")) = true :=
      hall r (List.mem_cons_self _ _)
    unfold distribute
    rw [List.foldlM_cons]
    simp only []
    rw [hr]
    simp only [if_true]
    have hpres : ∀ s ∈ t,
        entPresent (ed.map (fun e =>
          if e.name == ((r.fromEntity).getD "undefined") then
            if e.relations.any (fun x => x.localName == r.localName) then e
            else { e with relations := e.relations ++ [r] }
          else e)) ((s.fromEntity).getD "undefined") = true := by
      intro x hx
      unfold entPresent
      rw [any_name_map]
      · exact hall x (List.mem_cons_of_mem _ hx)
      · intro e
        repeat' split
        all_goals rfl
    obtain ⟨out, hout⟩ := ih _ hpres
    exact ⟨out, hout⟩

/-- Entity building succeeds on any well-formed input. -/
theorem buildEntities_total (files : List SFile) (h : wfInput files = true) :
    ∃ ed, buildEntities files = Except.ok ed := by
  unfold wfInput at h
  rw [List.all_eq_true] at h
  obtain ⟨r, hok, hstr, hmono, hpg⟩ :=
    pass2_fold_wf (pass1 files).1 (allDecls files) ([], [])
      (fun fd hfd => h fd hfd) (fun s hs => absurd hs (List.not_mem_nil s))
  have hpass2 : pass2 (pass1 files).1 files = Except.ok r := hok
  have hdist : ∀ s ∈ resolveStubs r.2,
      entPresent r.1 ((s.fromEntity).getD "undefined") = true := by
    intro s hs
    obtain ⟨x, hx, hfe⟩ := resolveStubs_mem_fromEntity hs
    obtain ⟨d, ent, hde, hxe⟩ := hstr x hx
    rw [← hfe, hxe]
    have hsome : (assocGet (pass1 files).1 d).isSome = true := by
      rw [hde]
      rfl
    rcases pass1_key_table (allDecls files) ([], []) d hsome with
      ⟨fd, hfd, hname, args, hinit⟩ | habs
    · have hp := hpg fd hfd args hinit
      rw [hname, hde] at hp
      exact hp
    · simp [assocGet] at habs
  obtain ⟨out, hdistok⟩ := distribute_total (resolveStubs r.2) r.1 hdist
  refine ⟨out, ?_⟩
  unfold buildEntities
  simp only []
  rw [hpass2]
  exact hdistok

/-- C4 (counterexample): a relations declaration whose first argument names
a variable with no table declaration crashes the conversion with a
TypeError at the distribution step, and a relations declaration with a
single argument crashes it reading `.kind` of the missing arrow function —
neither degrades gracefully. -/
theorem convert_total_c4_cex :
    convertSchemas exBadRelInput =
      Except.error "TypeError: Cannot read properties of undefined (reading relations)" ∧
    convertSchemas exOneArgRel =
      Except.error "TypeError: Cannot read properties of undefined (reading kind)" := by
  exact ⟨rfl, rfl⟩

/-- C4 (amended): on well-formed input — every table column initializer
rooted in a direct call and free of argument-less `references` frames,
every index entry carrying its `.on` arguments, and every relations
declaration having a second argument and a first argument naming a
registered table variable — `convertSchemas` returns normally; unresolved
foreign keys and unknown column types degrade gracefully rather than
erroring. -/
theorem convert_total_c4 (files : List SFile) (h : wfInput files = true) :
    ∃ out, convertSchemas files = Except.ok out := by
  obtain ⟨ed, hed⟩ := buildEntities_total files h
  refine ⟨emitAll ed (pass1 files).2, ?_⟩
  unfold convertSchemas
  rw [hed]
  rfl

/-- C4 witness: the two-table, two-relations input is well-formed and
converts without error. -/
theorem convert_total_c4_witness :
    wfInput exInput1 = true ∧ ∃ out, convertSchemas exInput1 = Except.ok out :=
  ⟨by rfl, convert_total_c4 exInput1 (by rfl)⟩

end DrizzleConv
